import Mathlib

/-!
Verification development for the openedx2zim scraper core
(html_processor.py, scraper.py, utils.py, instance_connection.py).

The Python code is shallowly embedded: pure helpers become Lean functions,
stateful code threads an explicit filesystem/event state, network and
external binaries (requests, save_large_file, youtube_dl, ffmpeg binaries,
jinja templates, lxml parse/serialize, the S3 object storage) are supplied
as oracle parameters, and fallible Python code returns `Except`/`Option`
(`Except` errors model exceptions that propagate, `Option` models
`None` results).

The first sections model the parts of the Python standard library the
code relies on: UTF-8 encoding, the xxh64 hash, `urllib.parse.urlparse`,
`pathlib.PurePosixPath` operations and a few `str` methods.
-/

set_option autoImplicit false
set_option linter.unusedVariables false

/-! ## Python truthiness -/

/-- Truthiness of a Python string: `bool(s)` is `False` exactly for `""`. -/
def pyTruthyStr (s : String) : Bool := s ≠ ""

/-- Truthiness of a Python value that is either `None` or a string. -/
def pyTruthyOptStr (s : Option String) : Bool :=
  match s with
  | none => false
  | some s => s ≠ ""

/-- Truthiness of a Python value that is either `None` or a bool. -/
def pyTruthyOptBool (b : Option Bool) : Bool :=
  match b with
  | none => false
  | some b => b

/-! ## UTF-8 encoding (model of `str.encode("utf-8")`), as lists of byte values -/

/-- UTF-8 encoding of a single code point. -/
def utf8Char (c : Char) : List Nat :=
  let n := c.toNat
  if n < 0x80 then [n]
  else if n < 0x800 then [0xC0 + n / 64, 0x80 + n % 64]
  else if n < 0x10000 then [0xE0 + n / 4096, 0x80 + (n / 64) % 64, 0x80 + n % 64]
  else [0xF0 + n / 262144, 0x80 + (n / 4096) % 64, 0x80 + (n / 64) % 64, 0x80 + n % 64]

/-- UTF-8 encoding of a string, `s.encode("utf-8")` in the Python code. -/
def utf8Bytes (s : String) : List Nat :=
  s.toList.foldr (fun c acc => utf8Char c ++ acc) []

/-! ## xxh64 (model of `xxhash.xxh64(...).hexdigest()` with the default seed 0)

All arithmetic is on `Nat` reduced modulo `2 ^ 64` where the C implementation
wraps; bytes are consumed exactly as the reference xxHash (XXH64) algorithm
prescribes. -/

def xxhMod : Nat := 2 ^ 64

def xxhP1 : Nat := 11400714785074694791
def xxhP2 : Nat := 14029467366897019727
def xxhP3 : Nat := 1609587929392839161
def xxhP4 : Nat := 9650029242287828579
def xxhP5 : Nat := 2870177450012600261

/-- Left rotation of a 64-bit value represented as a `Nat` below `2 ^ 64`. -/
def xxhRotl (x r : Nat) : Nat :=
  (x * 2 ^ r + x / 2 ^ (64 - r)) % xxhMod

/-- One accumulator round of XXH64. -/
def xxhRound (acc input : Nat) : Nat :=
  (xxhRotl ((acc + input * xxhP2) % xxhMod) 31 * xxhP1) % xxhMod

/-- Merge of one lane accumulator into the final hash. -/
def xxhMergeRound (h v : Nat) : Nat :=
  ((h ^^^ xxhRound 0 v) * xxhP1 + xxhP4) % xxhMod

/-- Little-endian read of the first `k` bytes of `l` as a `Nat`. -/
def leNat (k : Nat) (l : List Nat) : Nat :=
  match k, l with
  | 0, _ => 0
  | _, [] => 0
  | k + 1, b :: rest => b + 256 * leNat k rest

/-- Main 32-byte stripe loop of XXH64 over the four lane accumulators
(structural recursion: a stripe is consumed while 32 bytes remain). -/
def xxhStripes (v1 v2 v3 v4 : Nat) : List Nat → Nat × Nat × Nat × Nat × List Nat
  | b0 :: b1 :: b2 :: b3 :: b4 :: b5 :: b6 :: b7 ::
    b8 :: b9 :: b10 :: b11 :: b12 :: b13 :: b14 :: b15 ::
    b16 :: b17 :: b18 :: b19 :: b20 :: b21 :: b22 :: b23 ::
    b24 :: b25 :: b26 :: b27 :: b28 :: b29 :: b30 :: b31 :: rest =>
    xxhStripes
      (xxhRound v1 (leNat 8 [b0, b1, b2, b3, b4, b5, b6, b7]))
      (xxhRound v2 (leNat 8 [b8, b9, b10, b11, b12, b13, b14, b15]))
      (xxhRound v3 (leNat 8 [b16, b17, b18, b19, b20, b21, b22, b23]))
      (xxhRound v4 (leNat 8 [b24, b25, b26, b27, b28, b29, b30, b31]))
      rest
  | l => (v1, v2, v3, v4, l)

/-- Eight-byte tail loop of XXH64. -/
def xxhTail8 (h64 : Nat) : List Nat → Nat × List Nat
  | b0 :: b1 :: b2 :: b3 :: b4 :: b5 :: b6 :: b7 :: rest =>
    let k1 := xxhRound 0 (leNat 8 [b0, b1, b2, b3, b4, b5, b6, b7])
    xxhTail8 ((xxhRotl (h64 ^^^ k1) 27 * xxhP1 + xxhP4) % xxhMod) rest
  | l => (h64, l)

/-- Byte-at-a-time tail loop of XXH64. -/
def xxhTail1 (h64 : Nat) (l : List Nat) : Nat :=
  match l with
  | [] => h64
  | b :: rest =>
    xxhTail1 ((xxhRotl (h64 ^^^ (b * xxhP5) % xxhMod) 11 * xxhP1) % xxhMod) rest

/-- Final avalanche of XXH64. -/
def xxhAvalanche (h : Nat) : Nat :=
  let h := h ^^^ (h / 2 ^ 33)
  let h := (h * xxhP2) % xxhMod
  let h := h ^^^ (h / 2 ^ 29)
  let h := (h * xxhP3) % xxhMod
  h ^^^ (h / 2 ^ 32)

/-- XXH64 with seed 0 over a list of byte values. -/
def xxh64 (bytes : List Nat) : Nat :=
  let len := bytes.length
  let (h64, rest) :=
    if len ≥ 32 then
      let (v1, v2, v3, v4, rest) :=
        xxhStripes ((xxhP1 + xxhP2) % xxhMod) xxhP2 0 (xxhMod - xxhP1) bytes
      let h := (xxhRotl v1 1 + xxhRotl v2 7 + xxhRotl v3 12 + xxhRotl v4 18) % xxhMod
      let h := xxhMergeRound h v1
      let h := xxhMergeRound h v2
      let h := xxhMergeRound h v3
      let h := xxhMergeRound h v4
      (h, rest)
    else
      (xxhP5, bytes)
  let h64 := (h64 + len) % xxhMod
  let (h64, rest) := xxhTail8 h64 rest
  let (h64, rest) :=
    if rest.length ≥ 4 then
      ((xxhRotl (h64 ^^^ (leNat 4 rest * xxhP1) % xxhMod) 23 * xxhP2 + xxhP3) % xxhMod,
        rest.drop 4)
    else
      (h64, rest)
  xxhAvalanche (xxhTail1 h64 rest)

/-- Lowercase hexadecimal digit. -/
def hexDigit (n : Nat) : Char :=
  if n < 10 then Char.ofNat (48 + n) else Char.ofNat (87 + n)

/-- Sixteen-character lowercase hex rendering, as `hexdigest()` produces. -/
def hexDigest16 (h : Nat) : String :=
  String.mk ((List.range 16).map (fun i => hexDigit ((h / 16 ^ (15 - i)) % 16)))

/-- Model of `xxhash.xxh64(s.encode("utf-8")).hexdigest()`. -/
def xxh64hex (s : String) : String :=
  hexDigest16 (xxh64 (utf8Bytes s))

/-! ## Model of `urllib.parse.urlparse`

Follows CPython's `urlsplit` (scheme, then `//netloc`, then fragment, then
query) plus `urlparse`'s `_splitparams` on the path. -/

structure UrlParts where
  scheme : String
  netloc : String
  path : String
  params : String
  query : String
  fragment : String
deriving Repr, DecidableEq

/-- Characters CPython allows in a URL scheme after the initial letter. -/
def isSchemeChar (c : Char) : Bool :=
  c.isAlphanum || c = '+' || c = '-' || c = '.'

/-- Split a character list at the first occurrence of `c`; the separator is
dropped. Returns the whole list and `none` when `c` does not occur. -/
def splitAtFirst (c : Char) (cs : List Char) : List Char × Option (List Char) :=
  match cs.findIdx? (· = c) with
  | none => (cs, none)
  | some i => (cs.take i, some (cs.drop (i + 1)))

/-- CPython `_splitparams`: split `;params` off the last path segment. -/
def splitParams (path : List Char) : List Char × List Char :=
  let searchFrom :=
    if path.contains '/' then
      path.length - 1 - ((path.reverse.findIdx? (· = '/')).getD 0)
    else 0
  match ((path.drop searchFrom).findIdx? (· = ';')) with
  | none => (path, [])
  | some j => (path.take (searchFrom + j), path.drop (searchFrom + j + 1))

/-- Scheme extraction of CPython `urlsplit`: the scheme (lowercased) and
the remainder after the colon, or no scheme when the candidate is not a
letter followed by scheme characters. -/
def urlSchemeSplit (cs : List Char) : List Char × List Char :=
  match cs.findIdx? (· = ':') with
  | some i =>
    if 0 < i ∧ (cs.headD ' ').isAlpha ∧ (cs.take i).all isSchemeChar then
      ((cs.take i).map Char.toLower, cs.drop (i + 1))
    else ([], cs)
  | none => ([], cs)

/-- Netloc extraction of CPython `urlsplit`: after a leading `//`, the
netloc runs to the first `/`, `?` or `#`. -/
def urlNetlocSplit (cs : List Char) : List Char × List Char :=
  if cs.take 2 = ['/', '/'] then
    let r := cs.drop 2
    let idx := r.findIdx (fun c => c = '/' || c = '?' || c = '#')
    (r.take idx, r.drop idx)
  else ([], cs)

/-- Fragment split at the first `#`. -/
def urlFragSplit (cs : List Char) : List Char × List Char :=
  match splitAtFirst '#' cs with
  | (r, none) => (r, [])
  | (r, some f) => (r, f)

/-- Query split at the first `?`. -/
def urlQuerySplit (cs : List Char) : List Char × List Char :=
  match splitAtFirst '?' cs with
  | (r, none) => (r, [])
  | (r, some q) => (r, q)

/-- Model of `urllib.parse.urlparse(url)`. -/
def pyUrlparse (url : String) : UrlParts :=
  let s := urlSchemeSplit url.toList
  let n := urlNetlocSplit s.2
  let f := urlFragSplit n.2
  let q := urlQuerySplit f.1
  let pp := splitParams q.1
  { scheme := String.mk s.1
    netloc := String.mk n.1
    path := String.mk pp.1
    params := String.mk pp.2
    query := String.mk q.2
    fragment := String.mk f.2 }

/-! ## Model of `pathlib.PurePosixPath`

Paths are kept as plain strings; `pySegs` is the normalized component list
(CPython drops empty and `"."` components). The double-slash root special
case (`//a`) is not modeled; no path in this development begins with `//`. -/

/-- Model of `str.split(sep)` for a one-character separator, on character
lists (`"".split` semantics of the `str.split(sep)` form: splitting the
empty string gives one empty piece). -/
def listSplit (sep : Char) : List Char → List (List Char)
  | [] => [[]]
  | c :: rest =>
    if c = sep then [] :: listSplit sep rest
    else
      match listSplit sep rest with
      | [] => [[c]]
      | g :: gs => (c :: g) :: gs

/-- Model of `s.split(sep)` for a one-character separator. -/
def pySplitChar (sep : Char) (s : String) : List String :=
  (listSplit sep s.toList).map String.mk

/-- Model of Python slicing `s[:n]` (by characters, as `str` slicing is). -/
def pyTake (n : Nat) (s : String) : String :=
  String.mk (s.toList.take n)

/-- Model of `s.startswith(pre)`, by characters (reduces by `rfl`,
unlike `String.startsWith`). -/
def pyStartsWith (pre s : String) : Bool := pre.toList.isPrefixOf s.toList

/-- Model of `s.endswith(suf)`, by characters. -/
def pyEndsWith (suf s : String) : Bool :=
  suf.toList.reverse.isPrefixOf s.toList.reverse

/-- Normalized path components, root excluded. -/
def pySegs (p : String) : List String :=
  (pySplitChar '/' p).filter (fun s => s ≠ "" && s ≠ ".")

/-- Whether the path is absolute. -/
def pyIsAbs (p : String) : Bool := pyStartsWith "/" p

/-- Model of `PurePosixPath(p).parts` (the root appears as a `"/"` entry). -/
def pyParts (p : String) : List String :=
  (if pyIsAbs p then ["/"] else []) ++ pySegs p

/-- Model of `path.parts[-1]`. Python raises `IndexError` on an empty tuple;
every call site in the source reaches this with a non-empty path, so the
default `""` branch is never meaningful. -/
def pyPartsLast (p : String) : String := (pyParts p).getLastD ""

/-- Model of `PurePosixPath(p).name`. -/
def pyPathName (p : String) : String := (pySegs p).getLastD ""

/-- CPython `PurePath.suffix` on a file name: the part of the name from its
last dot, provided that dot is neither the first nor the last character. -/
def pyNameSuffix (n : String) : String :=
  let cs := n.toList
  match cs.reverse.findIdx? (· = '.') with
  | none => ""
  | some rj =>
    let i := cs.length - 1 - rj
    if 0 < i ∧ i < cs.length - 1 then String.mk (cs.drop i) else ""

/-- Model of `PurePosixPath(p).suffix`. -/
def pySuffix (p : String) : String := pyNameSuffix (pyPathName p)

/-- Model of `PurePosixPath(p).with_suffix(ext).name` at the level of the
file name: the old suffix is removed and `ext` appended. -/
def pyWithSuffixName (n ext : String) : String :=
  String.mk (n.toList.take (n.length - (pyNameSuffix n).length)) ++ ext

/-- Model of `str(PurePosixPath(p))`. -/
def pyPathStr (p : String) : String :=
  if pyIsAbs p then "/" ++ String.intercalate "/" (pySegs p)
  else
    match pySegs p with
    | [] => "."
    | segs => String.intercalate "/" segs

/-- Model of `PurePosixPath(p).parent`, as a string. -/
def pyParent (p : String) : String :=
  match pySegs p with
  | [] => if pyIsAbs p then "/" else "."
  | segs =>
    let init := segs.dropLast
    if pyIsAbs p then "/" ++ String.intercalate "/" init
    else if init = [] then "." else String.intercalate "/" init

/-- Model of `dir.joinpath(arg)` rendered back to a string. An absolute
argument replaces the whole path (pathlib semantics); `Path("")` is `.`,
so joining onto the empty string yields the bare argument. -/
def pyJoin (dir arg : String) : String :=
  if pyStartsWith "/" arg then arg
  else if dir = "" then arg
  else dir ++ "/" ++ arg

/-! ## Assorted `str` methods -/

/-- Python `in` on strings: substring containment. -/
def pyIn (needle hay : String) : Bool :=
  decide (needle.toList <:+: hay.toList)

/-- Whitespace for the model of `str.strip` (the ASCII whitespace Python
strips; exotic unicode whitespace does not occur in this code's inputs). -/
def pyIsSpace (c : Char) : Bool :=
  c = ' ' || c = '\t' || c = '\n' || c = '\r' || c = Char.ofNat 11 || c = Char.ofNat 12

/-- Model of `str.strip()`. -/
def pyStrip (s : String) : String :=
  String.mk (((s.toList.dropWhile pyIsSpace).reverse.dropWhile pyIsSpace).reverse)

/-- Model of `s.split(sep, 1)[0]`: the text before the first occurrence of
the separator character. -/
def pyTakeUntil (c : Char) (s : String) : String :=
  String.mk (s.toList.takeWhile (· ≠ c))

/-! ## Percent-encoding (models of `urllib.parse.quote_plus` / `unquote_plus`) -/

/-- Uppercase hexadecimal digit, as `quote` emits. -/
def hexDigitUpper (n : Nat) : Char :=
  if n < 10 then Char.ofNat (48 + n) else Char.ofNat (55 + n)

/-- Bytes `quote_plus` leaves unencoded (its `_ALWAYS_SAFE` set with the
default empty `safe` argument). -/
def quoteSafeByte (b : Nat) : Bool :=
  (48 ≤ b ∧ b ≤ 57) || (65 ≤ b ∧ b ≤ 90) || (97 ≤ b ∧ b ≤ 122) ||
    b = 95 || b = 46 || b = 45 || b = 126

/-- Model of `urllib.parse.quote_plus(s)`. -/
def pyQuotePlus (s : String) : String :=
  String.mk ((utf8Bytes s).foldr
    (fun b acc =>
      if quoteSafeByte b then Char.ofNat b :: acc
      else if b = 32 then '+' :: acc
      else '%' :: hexDigitUpper (b / 16) :: hexDigitUpper (b % 16) :: acc)
    [])

/-- Value of an ASCII hex digit, `none` for other characters. -/
def hexVal (c : Char) : Option Nat :=
  let n := c.toNat
  if 48 ≤ n ∧ n ≤ 57 then some (n - 48)
  else if 65 ≤ n ∧ n ≤ 70 then some (n - 55)
  else if 97 ≤ n ∧ n ≤ 102 then some (n - 87)
  else none

/-- Percent-decoding pass of `unquote`: turn `%XX` escapes into bytes and
other characters into their code points (inputs here are ASCII URLs). -/
def percentDecode : List Char → List Nat
  | [] => []
  | '%' :: a :: b :: rest =>
    match hexVal a, hexVal b with
    | some ha, some hb => (16 * ha + hb) :: percentDecode rest
    | _, _ => 37 :: percentDecode (a :: b :: rest)
  | c :: rest => c.toNat :: percentDecode rest

/-- One UTF-8 decoding step: given the lead byte and the remaining bytes,
the decoded character and how many of the remaining bytes it consumed
(U+FFFD with zero extra bytes on malformed input; overlong forms are not
rejected, the URLs this is applied to are ASCII). -/
def utf8Step (b : Nat) (rest : List Nat) : Char × Nat :=
  let cont (c : Nat) : Bool := 0x80 ≤ c ∧ c ≤ 0xBF
  if b < 0x80 then (Char.ofNat b, 0)
  else if 0xC2 ≤ b ∧ b ≤ 0xDF then
    match rest with
    | c1 :: _ =>
      if cont c1 then (Char.ofNat ((b - 0xC0) * 64 + (c1 - 0x80)), 1)
      else (Char.ofNat 0xFFFD, 0)
    | [] => (Char.ofNat 0xFFFD, 0)
  else if 0xE0 ≤ b ∧ b ≤ 0xEF then
    match rest with
    | c1 :: c2 :: _ =>
      if cont c1 ∧ cont c2 then
        (Char.ofNat ((b - 0xE0) * 4096 + (c1 - 0x80) * 64 + (c2 - 0x80)), 2)
      else (Char.ofNat 0xFFFD, 0)
    | _ => (Char.ofNat 0xFFFD, 0)
  else if 0xF0 ≤ b ∧ b ≤ 0xF4 then
    match rest with
    | c1 :: c2 :: c3 :: _ =>
      if cont c1 ∧ cont c2 ∧ cont c3 then
        (Char.ofNat (min ((b - 0xF0) * 262144 + (c1 - 0x80) * 4096 + (c2 - 0x80) * 64 +
          (c3 - 0x80)) 0x10FFFF), 3)
      else (Char.ofNat 0xFFFD, 0)
    | _ => (Char.ofNat 0xFFFD, 0)
  else (Char.ofNat 0xFFFD, 0)

/-- UTF-8 decoding with U+FFFD replacement on malformed input
(structural recursion dispatching on the step's consumed-byte count;
`utf8Step` only reports a count it actually matched, so the fallback
arms of the inner matches are unreachable). -/
def utf8Decode : List Nat → List Char
  | [] => []
  | b :: rest =>
    let s := utf8Step b rest
    if s.2 = 1 then
      match rest with
      | _ :: r1 => s.1 :: utf8Decode r1
      | [] => [s.1]
    else if s.2 = 2 then
      match rest with
      | _ :: _ :: r2 => s.1 :: utf8Decode r2
      | _ => [s.1]
    else if s.2 = 3 then
      match rest with
      | _ :: _ :: _ :: r3 => s.1 :: utf8Decode r3
      | _ => [s.1]
    else s.1 :: utf8Decode rest

/-- Model of `urllib.parse.unquote_plus(s)`: `+` becomes a space, then
percent-escapes are decoded as UTF-8. -/
def pyUnquotePlus (s : String) : String :=
  String.mk (utf8Decode (percentDecode (s.toList.map (fun c => if c = '+' then ' ' else c))))

/-! ## HTML element model

One parsed markup element, covering what the scanners touch: the tag
name, the attribute mapping (`lxml` `.attrib` / BeautifulSoup `.attrs` —
a BeautifulSoup attribute value may be Python `None`, hence
`Option String` values), and the tag's text (`script_tag.string`,
`None` when absent). Documents are flat element lists; the xpath
queries `//img`, `//a`, ... are tag filters over that list. -/

structure Element where
  tag : String
  attrs : List (String × Option String)
  text : Option String
deriving Repr, DecidableEq

/-- Attribute lookup: `none` when the attribute is absent. -/
def Element.getAttr (e : Element) (k : String) : Option (Option String) :=
  List.lookup k e.attrs

/-- Model of `"k" in e.attrib` / `e.has_attr("k")`. -/
def Element.hasAttr (e : Element) (k : String) : Bool :=
  (e.getAttr k).isSome

/-- Model of `e.attrib[k] = v`: update in place, or append when new. -/
def Element.setAttr (e : Element) (k : String) (v : Option String) : Element :=
  if e.hasAttr k then
    { e with attrs := e.attrs.map (fun kv => if kv.1 = k then (k, v) else kv) }
  else
    { e with attrs := e.attrs ++ [(k, v)] }

/-- Model of assigning `e.string = s`. -/
def Element.setText (e : Element) (s : Option String) : Element :=
  { e with text := s }

/-! ## Content-tree model (xblock extractor objects)

The xblock extractor base class lives in `xblocks_extractor/` modules not
present under src/; the fields below are the ones the core reads
(`xblock_json` entries, `relative_path`, `descendants`), built by
`Openedx2Zim.parse_course_xblocks`. `relative_path` is kept as a string
(the base class renders it when concatenating `+ "/index.html"`). -/

structure XBlockJson where
  type : String
  block_id : String
  lms_web_url : String
deriving Repr, DecidableEq

inductive XBlockExtractor where
  | mk (json : XBlockJson) (relative_path : String) (descendants : List XBlockExtractor)

def XBlockExtractor.json : XBlockExtractor → XBlockJson
  | .mk j _ _ => j

def XBlockExtractor.relPath : XBlockExtractor → String
  | .mk _ p _ => p

def XBlockExtractor.descendants : XBlockExtractor → List XBlockExtractor
  | .mk _ _ d => d

/-! ## Filesystem-and-events state

The on-disk build directory plus the two event logs the claims observe:
which URLs were fetched over the network and which cache keys
`upload_to_cache` was invoked for. -/

structure Fs where
  files : List (String × String)
  fetches : List String
  uploads : List String
deriving Repr, DecidableEq

def fsEmpty : Fs := { files := [], fetches := [], uploads := [] }

def fsRead (fs : Fs) (p : String) : Option String := List.lookup p fs.files

/-- Model of `path.exists()`. -/
def fsExists (fs : Fs) (p : String) : Bool := (fsRead fs p).isSome

/-- Write (or overwrite) a file. -/
def fsWrite (fs : Fs) (p c : String) : Fs :=
  { fs with files := (p, c) :: fs.files.filter (fun kv => kv.1 ≠ p) }

/-- Model of `os.unlink` (no error when absent, matching the guarded uses). -/
def fsRemove (fs : Fs) (p : String) : Fs :=
  { fs with files := fs.files.filter (fun kv => kv.1 ≠ p) }

/-- Model of `shutil.move(src, dst)`. -/
def fsMove (fs : Fs) (src dst : String) : Fs :=
  match fsRead fs src with
  | none => fs
  | some c => fsWrite (fsRemove fs src) dst c

/-- Record that a network fetch for `url` was attempted. -/
def fsLogFetch (fs : Fs) (url : String) : Fs :=
  { fs with fetches := url :: fs.fetches }

/-! ## External optimization cache (S3 object storage collaborator)

`kiwixstorage` is an external dependency; the spec specifies it at its
interface boundary only (spec §6: `has_object`, `has_object_matching`,
`download_file`, `upload_file`). Entries map a key to stored metadata
plus content. Per spec §3, a `None` value in the metadata dict passed by
the caller (the `optimizer_version: None` sent when
`use_any_optimized_version` is set) is a wildcard: that field is not
checked. -/

structure S3State where
  entries : List (String × (List (String × String) × String))
  downloadOk : Bool
  uploadOk : Bool

/-- Model of `s3_storage.has_object(key)`. -/
def s3HasObject (s3 : S3State) (key : String) : Bool :=
  (List.lookup key s3.entries).isSome

/-- Model of `s3_storage.has_object_matching(key, meta_dict)`: the entry
exists and every non-`None` value in the dict equals the stored one
(spec §3: a hit checks the freshness token and, unless the caller opted
out by sending `None`, the optimizer version). -/
def s3HasObjectMatching (s3 : S3State) (key : String)
    (meta : List (String × Option String)) : Bool :=
  match List.lookup key s3.entries with
  | none => false
  | some (stored, _) =>
    meta.all (fun kv =>
      match kv.2 with
      | none => true
      | some v => List.lookup kv.1 stored = some v)

/-! ## Network and collaborator oracles -/

/-- Outcome of one `requests.head` attempt inside `get_meta_from_url`.
Header names are normalized to lowercase (requests' header mapping is
case-insensitive). -/
inductive HeadOutcome where
  | timeout
  | reqError
  | ok (headers : List (String × String))

/-- Python exceptions that can propagate out of the embedded functions. -/
inductive PyErr where
  | attrError
  | typeError
  | indexError
  | fileNotFound
deriving Repr, DecidableEq

/-- External collaborators: the network, external binaries, template
rendering and markup parsing/serialization. Each field stands for one
library call site; keyed by that call's arguments so that a single oracle
describes a whole deterministic run. -/
structure Oracle where
  /-- outcome of the `attempt`-th `requests.head(url)` in `get_meta_from_url`. -/
  headOutcome : String → Nat → HeadOutcome
  /-- model of `mimetypes.guess_extension`. -/
  guessExt : String → Option String
  /-- `OPTIMIZER_VERSIONS` from constants.py, which is not under src/
  (spec §3/glossary: a version tag per media type for the optimizer). -/
  optimizerVersions : String → String
  /-- whether `save_large_file(url, ...)` succeeds. -/
  saveLargeFileOk : String → Bool
  /-- bytes fetched from a URL (content written on successful download). -/
  urlContent : String → String
  /-- name `tempfile.NamedTemporaryFile` picks for (fpath, filetype). -/
  tmpName : String → String → String
  /-- youtube_dl outcome for (url, fpath): the downloaded file's path. -/
  youtube : String → String → Option String
  /-- `optimize_image` outcome at a path: `error` models a raised
  exception, otherwise the `optimized` boolean it returns. -/
  optimizeImage : String → Except Unit Bool
  /-- `convert_video` outcome for (src, dst): `error` models a raised
  `reencode` failure (`failsafe=False`), `ok none` the no-conversion
  path, `ok (some b)` a completed re-encode returning `b`. -/
  convertVideo : String → String → Except Unit (Option Bool)
  /-- model of `instance_connection.get_page(url)`. -/
  getPage : String → Option String
  /-- model of `lxml.html.fromstring` on a document/fragment string. -/
  fromstring : String → List Element
  /-- model of `lxml.html.tostring(body, encoding="unicode")`. -/
  tostring : List Element → String
  /-- model of `jinja(None, template, False, ...)` followed by
  `lxml.html.fromstring`, for the synthesized video player fragment,
  keyed by the `video_path` argument. -/
  jinjaVideoFragment : String → Element
  /-- rendered content of the synthesized `audio_player.html` wrapper,
  keyed by the `audio_path` argument. -/
  jinjaAudioPage : String → String

/-! ## Scraper configuration (the `Openedx2Zim` fields the core reads) -/

structure ScraperCfg where
  /-- `self.instance_url`, e.g. `"https://h.example"` — always carries the
  scheme (`instance_connection.get_instance_config` builds it as
  `f"https://{instance_netloc}"`, and `INSTANCE_CONFIGS` entries follow
  the same shape). -/
  instance_url : String
  /-- `instance_config["course_prefix"]`. -/
  coursePre : String
  /-- `self.course_id` (quoted form, as stored by `get_course_id`). -/
  course_id : String
  /-- `self.video_format`. -/
  videoFormat : String
  /-- `self.low_quality`. -/
  lowQuality : Bool
  /-- `self.use_any_optimized_version`. -/
  useAnyOptimizedVersion : Bool
  /-- `self.s3_storage` (`none` when no external cache is configured). -/
  s3 : Option S3State
  /-- `self.xblock_extractor_objects`. -/
  xblocks : List XBlockExtractor
  /-- result of `get_tab_path_and_name(tab_text="", tab_href=path)`
  restricted to its `tab_path` component: a stateful collaborator
  (consults `self.course_tabs` and may fetch/annex extra pages). -/
  tabPath : String → Option String

/-- `VIDEO_FORMATS` from constants.py, which is not under src/. Modelled
from the spec: §4.2 re-encodes video to the configured container, webm
or mp4. -/
def VIDEO_FORMATS : List String := ["mp4", "webm"]

/-- `IMAGE_FORMATS` from constants.py, which is not under src/. Modelled
from the spec: §4.2's image recompression handles the jpeg/png/gif set
that `optimize_image` dispatches on. -/
def IMAGE_FORMATS : List String := ["jpeg", "jpg", "png", "gif"]

/-- `DOWNLOADABLE_EXTENSIONS` from constants.py, which is not under src/.
Modelled from the spec: §4.4's fixed downloadable-file allowlist for
anchor targets, documents plus audio (`AUDIO_FORMATS` wrapped in a
player page). -/
def DOWNLOADABLE_EXTENSIONS : List String :=
  [".pdf", ".doc", ".docx", ".xls", ".xlsx", ".ppt", ".pptx", ".txt", ".zip",
    ".mp3", ".ogg"]

/-- `AUDIO_FORMATS` from constants.py, which is not under src/. Modelled
from the spec: §4.4 wraps recognized audio formats in a playback page. -/
def AUDIO_FORMATS : List String := ["mp3", "ogg"]

/-! ## utils.get_meta_from_url -/

/-- The `for attempt in range(5)` retry loop of `get_response_headers`
inside `get_meta_from_url`: returns how many HEAD requests were issued
and either the response headers, or `none` for a raised exception (the
outer handler catches every exception the same way, so the error carries
no payload: both a propagated non-timeout request error and the
`Exception("Max retries exceeded")` after five timeouts land there). -/
def headLoop (o : Oracle) (url : String) : Nat → Nat → Nat × Option (List (String × String))
  | used, 0 => (used, none)
  | used, n + 1 =>
    match o.headOutcome url used with
    | .timeout => headLoop o url (used + 1) n
    | .reqError => (used + 1, none)
    | .ok h => (used + 1, some h)

/-- Model of `get_response_headers(url)` in `get_meta_from_url`. -/
def getResponseHeaders (o : Oracle) (url : String) : Nat × Option (List (String × String)) :=
  headLoop o url 0 5

/-- Case-insensitive header lookup (header names normalized lowercase). -/
def headersGet (hs : List (String × String)) (k : String) : Option String :=
  List.lookup k hs

/-- Model of `utils.get_meta_from_url(url)`. First component: number of
HEAD requests issued. A raised probe exception returns `(None, None)`;
but an exception raised while post-processing a successful response
(missing `content-type` makes `None.split` raise `AttributeError`, an
unguessable type makes `None[1:]` raise `TypeError`) happens in the
`else:` clause of the `try` and propagates. -/
def getMetaFromUrl (o : Oracle) (url : String) :
    Nat × Except PyErr (Option String × Option String) :=
  let (n, r) := getResponseHeaders o url
  match r with
  | none => (n, .ok (none, none))
  | some hs =>
    match headersGet hs "content-type" with
    | none => (n, .error .attrError)
    | some ct =>
      match o.guessExt (pyStrip (pyTakeUntil ';' ct)) with
      | none => (n, .error .typeError)
      | some g =>
        let content_type := g.drop 1
        match headersGet hs "etag" with
        | some e => (n, .ok (some e, some content_type))
        | none =>
          match headersGet hs "last-modified" with
          | some lm => (n, .ok (some lm, some content_type))
          | none =>
            match headersGet hs "content-length" with
            | some cl => (n, .ok (some cl, some content_type))
            | none => (n, .ok (none, some content_type))

/-! ## Openedx2Zim cache and download primitives (scraper.py) -/

/-- The `filetype` computed at the top of `download_from_cache` and
`upload_to_cache`. -/
def cacheFiletype (fpath : String) : String :=
  if pySuffix fpath = ".jpeg" ∨ pySuffix fpath = ".jpg" then "jpeg"
  else (pySuffix fpath).drop 1

/-- Model of `urlparse(...).geturl()` (CPython `urlunparse` for the URL
shapes reaching `generate_s3_key`: scheme plus netloc present). -/
def pyGeturl (u : UrlParts) : String :=
  (if u.scheme ≠ "" then u.scheme ++ ":" else "") ++
    (if u.netloc ≠ "" then "//" ++ u.netloc else "") ++
    u.path ++
    (if u.params ≠ "" then ";" ++ u.params else "") ++
    (if u.query ≠ "" then "?" ++ u.query else "") ++
    (if u.fragment ≠ "" then "#" ++ u.fragment else "")

/-- Model of `Openedx2Zim.generate_s3_key(url, fpath)`. -/
def generateS3Key (cfg : ScraperCfg) (url fpath : String) : String :=
  let quality :=
    if ((pySuffix fpath).drop 1) ∈ VIDEO_FORMATS then
      if cfg.lowQuality then "low" else "high"
    else "default"
  let src_url := pyUrlparse url
  let pre := src_url.scheme ++ "://" ++ src_url.netloc ++ "/"
  let safe_url := src_url.netloc ++ "/" ++ pyQuotePlus ((pyGeturl src_url).drop pre.length)
  (pySuffix fpath).drop 1 ++ "/" ++ safe_url ++ "/" ++ quality

/-- The `meta_dict` that `download_from_cache` hands to
`has_object_matching`: the freshness token plus the optimizer version,
the latter `None` (accept any) under `use_any_optimized_version`. -/
def cacheMetaDict (o : Oracle) (useAny : Bool) (fpath : String)
    (meta : Option String) : List (String × Option String) :=
  [("version", meta),
    ("optimizer_version",
      if useAny then none else some (o.optimizerVersions (cacheFiletype fpath)))]

/-- Model of `Openedx2Zim.download_from_cache(key, fpath, meta)`: whether
it downloaded from the S3 cache. Every failure path — missing object,
falsy metadata, metadata mismatch, raised transfer error (caught by its
`try`/`except`) — returns `False`; the function never lets an exception
escape. -/
def downloadFromCache (o : Oracle) (s3 : S3State) (useAny : Bool) (fs : Fs)
    (key fpath : String) (meta : Option String) : Fs × Bool :=
  if ¬ s3HasObject s3 key ∨ ¬ pyTruthyOptStr meta then (fs, false)
  else
    let meta_dict := cacheMetaDict o useAny fpath meta
    if ¬ s3HasObjectMatching s3 key meta_dict then (fs, false)
    else if s3.downloadOk then
      match List.lookup key s3.entries with
      | some (_, content) => (fsWrite fs fpath content, true)
      | none => (fs, false)
    else (fs, false)

/-- Model of `Openedx2Zim.upload_to_cache(key, fpath, meta)`: whether it
uploaded to the S3 cache. The invocation itself is recorded in the
`uploads` event log (that is the observable C6 speaks about); a transfer
error is caught and reported as `False`. -/
def uploadToCache (s3 : S3State) (fs : Fs) (key fpath : String)
    (meta : Option String) : Fs × Bool :=
  let fs := { fs with uploads := key :: fs.uploads }
  let filetype := cacheFiletype fpath
  if ¬ pyTruthyOptStr meta ∨ ¬ pyTruthyStr filetype then (fs, false)
  else (fs, s3.uploadOk)

/-- Model of `Openedx2Zim.downlaod_form_url(url, fpath, filetype)` (the
source's spelling): picks a temporary download path when the probed file
type disagrees with `fpath`'s extension, attempts `save_large_file`, and
on failure unlinks the partial file and returns `None`. -/
def downlaodFormUrl (o : Oracle) (fs : Fs) (url fpath : String)
    (filetype : Option String) : Fs × Option String :=
  let download_path :=
    if pyTruthyOptStr filetype ∧ (pySuffix fpath).drop 1 ≠ filetype.getD "" ∧
        ¬(filetype = some "jpg" ∧ (pySuffix fpath).drop 1 = "jpeg") then
      o.tmpName fpath (filetype.getD "")
    else fpath
  let fs := if download_path ≠ fpath then fsWrite fs download_path "" else fs
  let fs := fsLogFetch fs url
  if o.saveLargeFileOk url then (fsWrite fs download_path (o.urlContent url), some download_path)
  else (fsRemove fs download_path, none)

/-- Model of `Openedx2Zim.download_from_youtube(url, fpath)` (youtube_dl
is an external collaborator; the oracle supplies the file it produces). -/
def downloadFromYoutube (o : Oracle) (fs : Fs) (url fpath : String) :
    Fs × Option String :=
  let fs := fsLogFetch fs url
  match o.youtube url fpath with
  | some f => (fsWrite fs f (o.urlContent url), some f)
  | none => (fs, none)

/-- Model of `Openedx2Zim.optimize_file(src, dst)`: dispatch on the
downloaded file's extension. `convert_video` (a `reencode` wrapper,
`failsafe=False`) and `optimize_image` (jpegoptim/pngquant/advdef/
gifsicle wrappers) shell out to external binaries, so their outcomes
are oracle-supplied; their file moves are modeled (`reencode` writes
`dst` and deletes `src`; `optimize_image` ends with
`shutil.move(src, dst)` when the paths differ). -/
def optimizeFile (o : Oracle) (fs : Fs) (src dst : String) :
    Fs × Except Unit (Option Bool) :=
  if (pySuffix src).drop 1 ∈ VIDEO_FORMATS then
    match o.convertVideo src dst with
    | .error () => (fs, .error ())
    | .ok none => (fs, .ok none)
    | .ok (some b) => (fsWrite (fsRemove fs src) dst ("reencoded:" ++ src), .ok (some b))
  else if (pySuffix src).drop 1 ∈ IMAGE_FORMATS then
    match o.optimizeImage src with
    | .error () => (fs, .error ())
    | .ok b => ((if src ≠ dst then fsMove fs src dst else fs), .ok (some b))
  else (fs, .ok none)

/-- The `finally:` clause of `download_file`: move the downloaded file
onto `fpath` when it landed elsewhere and `fpath` does not exist. -/
def dlFinally (fs : Fs) (dfile fpath : String) : Fs :=
  if dfile ≠ fpath ∧ ¬ fsExists fs fpath then fsMove fs dfile fpath else fs

/-- Observable trace of one `Openedx2Zim.download_file(url, fpath)` call.
`ret` is the Python return value: the source has no `return` with a
value on any path (two bare `return`s and a fall-through), so a
non-raising call always returns `None` (`.ok none`). -/
structure DlTrace where
  fs : Fs
  ret : Except PyErr (Option Bool)
  cacheHit : Bool
  downloaded : Option String
  optResult : Option (Except Unit (Option Bool))
  uploaded : Bool

/-- Model of `Openedx2Zim.download_file(url, fpath)`. -/
def downloadFile (o : Oracle) (cfg : ScraperCfg) (fs : Fs) (url fpath : String) : DlTrace :=
  let is_youtube := pyIn "youtube" url
  let (_, metaRes) := getMetaFromUrl o url
  match metaRes with
  | .error e =>
    { fs := fs, ret := .error e, cacheHit := false, downloaded := none,
      optResult := none, uploaded := false }
  | .ok (meta, filetype) =>
    let (fs, downloaded_from_cache) :=
      match cfg.s3 with
      | some s3 =>
        downloadFromCache o s3 cfg.useAnyOptimizedVersion fs
          (generateS3Key cfg url fpath) fpath meta
      | none => (fs, false)
    if downloaded_from_cache then
      { fs := fs, ret := .ok none, cacheHit := true, downloaded := none,
        optResult := none, uploaded := false }
    else
      let (fs, downloaded_file) :=
        if is_youtube then downloadFromYoutube o fs url fpath
        else downlaodFormUrl o fs url fpath filetype
      match downloaded_file with
      | none =>
        { fs := fs, ret := .ok none, cacheHit := false, downloaded := none,
          optResult := none, uploaded := false }
      | some dfile =>
        match optimizeFile o fs dfile fpath with
        | (fs1, .error ()) =>
          { fs := dlFinally fs1 dfile fpath, ret := .ok none, cacheHit := false,
            downloaded := some dfile, optResult := some (.error ()), uploaded := false }
        | (fs1, .ok optimized) =>
          let (fs2, uploaded) :=
            if cfg.s3.isSome ∧ pyTruthyOptBool optimized then
              match cfg.s3 with
              | some s3 =>
                let (f, _) := uploadToCache s3 fs1 (generateS3Key cfg url fpath) fpath meta
                (f, true)
              | none => (fs1, false)
            else (fs1, false)
          { fs := dlFinally fs2 dfile fpath, ret := .ok none, cacheHit := false,
            downloaded := some dfile, optResult := some (.ok optimized),
            uploaded := uploaded }

/-! ## HtmlProcessor.download_and_get_filename -/

/-- Modelled from the spec: `utils.prepare_url`, whose definition is not
under src/ (utils.py there ends before it; only its import and call
sites are present). Spec §4.1: a ref that already carries a network
location is used as-is; a host-rooted ref joins the current host; any
other ref resolves against host plus server path. The resolved URL only
feeds the network oracles. -/
def prepareUrl (src netloc pathOnServer : String) : String :=
  if (pyUrlparse src).netloc ≠ "" then src
  else if pyStartsWith "/" src then netloc ++ src
  else netloc ++ "/" ++ (if pathOnServer = "" then src else pathOnServer ++ "/" ++ src)

/-- The local file name `download_and_get_filename` computes (its lines
31-37): extension-preserving basename for URL paths with a suffix,
hash of the full URL string plus extension otherwise. -/
def computeFilename (src : String) (withExt : Option String) : String :=
  let server_path := (pyUrlparse src).path
  let ext := if pyTruthyOptStr withExt then withExt.getD "" else pySuffix server_path
  if pySuffix server_path ≠ "" then pyWithSuffixName (pyPathName server_path) ext
  else xxh64hex src ++ ext

/-- Model of `HtmlProcessor.download_and_get_filename(src, output_path,
netloc, path_on_server, with_ext, filter_ext)`. `.ok none` is the
`(None, None)` return; otherwise the pair is (filename, fresh_download). -/
def downloadAndGetFilename (o : Oracle) (cfg : ScraperCfg) (fs : Fs)
    (src outputPath netloc pathOnServer : String)
    (withExt : Option String) (filterExt : Option (List String)) :
    Fs × Except PyErr (Option (String × Bool)) :=
  let server_path := (pyUrlparse src).path
  let ext := if pyTruthyOptStr withExt then withExt.getD "" else pySuffix server_path
  let filename := computeFilename src withExt
  let output_file := pyJoin outputPath filename
  if (match filterExt with
      | some fl => decide (fl ≠ []) && ! fl.contains ext
      | none => false) then
    (fs, .ok none)
  else if ¬ fsExists fs output_file then
    let tr := downloadFile o cfg fs (prepareUrl src netloc pathOnServer) output_file
    match tr.ret with
    | .error e => (tr.fs, .error e)
    | .ok r =>
      if pyTruthyOptBool r then (tr.fs, .ok (some (filename, true)))
      else (tr.fs, .ok none)
  else (fs, .ok (some (filename, false)))

/-! ## HtmlProcessor.handle_jump_to_paths and rewrite_internal_links -/

/-- Model of the inner `check_descendants_and_return_path`: descend via
`descendants[0]` until a unit of type "vertical" or "course" is reached;
`None` when the chain runs out. -/
def checkDescendantsAndReturnPath : XBlockExtractor → Option String
  | .mk json rel ds =>
    if json.type = "vertical" ∨ json.type = "course" then some (rel ++ "/index.html")
    else
      match ds with
      | [] => none
      | d :: _ => checkDescendantsAndReturnPath d

/-- The match condition of the `handle_jump_to_paths` loop: block id
equals the path's trailing segment, or the unit's `lms_web_url` path
equals the whole target path. -/
def xblockMatchesTarget (targetPath : String) (x : XBlockExtractor) : Bool :=
  (x.json.block_id == pyPartsLast targetPath) ||
    ((pyUrlparse x.json.lms_web_url).path == pyPathStr targetPath)

/-- Model of `HtmlProcessor.handle_jump_to_paths(target_path)`: the loop
returns on the first matching xblock (even when the descendant check
yields `None`), and falls through to `None` when nothing matches. -/
def handleJumpToPaths (objs : List XBlockExtractor) (targetPath : String) : Option String :=
  match objs.find? (xblockMatchesTarget targetPath) with
  | some x => checkDescendantsAndReturnPath x
  | none => none

/-- The jump-to branch of `rewrite_internal_links`: resolve the path, and
when that is falsy retry once with the path's parent. -/
def resolveJumpTo (objs : List XBlockExtractor) (srcPath : String) : Option String :=
  let first := handleJumpToPaths objs srcPath
  if pyTruthyOptStr first then first else handleJumpToPaths objs (pyParent srcPath)

/-- Attribute read at call sites that guarantee presence and a string
value (`lxml` attribute values are always strings). -/
def elemAttrStr (a : Element) (k : String) : String :=
  ((a.getAttr k).getD none).getD ""

/-- Model of the inner `update_root_relative_path(anchor, fixed_path,
root_from_html, netloc)`. -/
def updateRootRelativePath (a : Element) (fixedPath : Option String)
    (rootFromHtml netloc : String) : Element :=
  if pyTruthyOptStr fixedPath then
    a.setAttr "href" (some (rootFromHtml ++ fixedPath.getD ""))
  else
    a.setAttr "href" (some (netloc ++ elemAttrStr a "href"))

/-- The `path_prefix` computed at the top of `rewrite_internal_links`
(named `path_prefix` in the source). -/
def coursePathStart (cfg : ScraperCfg) : String :=
  cfg.coursePre ++ pyUnquotePlus cfg.course_id

/-- One iteration of the `rewrite_internal_links` anchor loop: the
returned flag tells whether this anchor set `has_changed`. -/
def processAnchor (cfg : ScraperCfg) (rootFromHtml netloc : String) (a : Element) :
    Element × Bool :=
  if ¬ a.hasAttr "href" then (a, false)
  else
    let src := pyUrlparse (elemAttrStr a "href")
    if src.netloc ≠ "" ∧ src.netloc ≠ cfg.instance_url then (a, false)
    else if pyStartsWith (coursePathStart cfg) src.path then
      if pyIn "jump_to" src.path ∧ netloc ≠ "" then
        (updateRootRelativePath a (resolveJumpTo cfg.xblocks src.path) rootFromHtml netloc,
          true)
      else
        (updateRootRelativePath a (cfg.tabPath src.path) rootFromHtml netloc, true)
    else if pyStartsWith "/" src.path then
      (updateRootRelativePath a none rootFromHtml netloc, true)
    else (a, false)

/-- Model of `HtmlProcessor.rewrite_internal_links(html_body,
root_from_html, netloc)`: processes every `//a` element, leaves other
elements alone, and returns `has_changed`. -/
def rewriteInternalLinks (cfg : ScraperCfg) (body : List Element)
    (rootFromHtml netloc : String) : List Element × Bool :=
  let processed := body.map (fun e =>
    if e.tag = "a" then processAnchor cfg rootFromHtml netloc e else (e, false))
  (processed.map Prod.fst, processed.any (·.2))

/-! ## Path algebra helpers (get_root_from_asset, get_path_and_netloc_to_send) -/

/-- Model of `s.count("../")` (the only `str.count` the source performs):
non-overlapping occurrences, scanning left to right. -/
def countBackJumpsAux : List Char → Nat
  | '.' :: '.' :: '/' :: rest => 1 + countBackJumpsAux rest
  | _ :: rest => countBackJumpsAux rest
  | [] => 0

def pyCountBackJumps (s : String) : Nat := countBackJumpsAux s.toList

/-- Modelled from the spec: `utils.get_back_jumps`, whose definition is
not under src/ (only its import and call sites are). Spec §2's Path
Algebra computes relative paths "given only jump count back-reference
strings": the `n`-fold `../` string, empty for a non-positive count
(Python string repetition clamps at zero). -/
def getBackJumps (n : Int) : String :=
  String.join (List.replicate n.toNat "../")

/-- Model of `HtmlProcessor.get_root_from_asset(path_from_html,
root_from_html)`. -/
def getRootFromAsset (pathFromHtml rootFromHtml : String) : String :=
  if pathFromHtml = "" then rootFromHtml
  else
    let nbJumpsRootFromHtml := pyCountBackJumps rootFromHtml
    let nbBackJumpsOutputPath := pyCountBackJumps pathFromHtml
    let pathWithoutBackJumps := pathFromHtml.drop (nbBackJumpsOutputPath * 3)
    getBackJumps ((nbJumpsRootFromHtml : Int) - nbBackJumpsOutputPath +
      (pyParts pathWithoutBackJumps).length)

/-- Model of `HtmlProcessor.get_path_and_netloc_to_send(netloc,
path_on_server, downloaded_asset_url)`. -/
def getPathAndNetlocToSend (netloc pathOnServer downloadedAssetUrl : String) :
    String × String :=
  let parsed_src := pyUrlparse downloadedAssetUrl
  let path_recursive :=
    if pyTruthyStr parsed_src.path then
      let asset_path_on_server := parsed_src.path
      let pr :=
        if pySuffix asset_path_on_server = "" then asset_path_on_server
        else pyParent asset_path_on_server
      if ¬ pyStartsWith "/" parsed_src.path then pyPathStr pr
      else pyPathStr (pyJoin pathOnServer (pyPathStr pr))
    else pathOnServer
  let netloc_recursive := if parsed_src.netloc ≠ "" then parsed_src.netloc else netloc
  (path_recursive, netloc_recursive)

/-! ## CSS dependency resolution (download_dependencies_from_css)

`re.split(r"url\((.+?)\)", content)` alternates literal text (even
indices) with the lazily captured `url()` arguments (odd indices). The
lazy `(.+?)` takes the shortest non-empty run of non-newline characters
followed by `)`: at a given `url(` occurrence the capture runs to the
first `)` at offset one or later, and the candidate match fails when a
newline intervenes. -/

/-- Index (counting from one past the first captured character) of the
closing parenthesis for a capture starting right after a `url(`. -/
def urlCloseIdx (cs : List Char) : Option Nat :=
  ((cs.takeWhile (· ≠ '\n')).drop 1).findIdx? (· = ')')

/-- Attempt the capture right after a `url(`: the captured group and the
remainder after the closing parenthesis. -/
def urlMatchAt (cs : List Char) : Option (List Char × List Char) :=
  match urlCloseIdx cs with
  | some j => some (cs.take (1 + j), cs.drop (1 + j + 1))
  | none => none

/-- The scan of `re.split(r"url\((.+?)\)", content)`: `pre` holds the
reversed literal text accumulated since the last match. -/
def reSplitAux (pre cs : List Char) : List String :=
  match cs with
  | [] => [String.mk pre.reverse]
  | c :: rest =>
    if c = 'u' ∧ rest.take 3 = ['r', 'l', '('] then
      match hm : urlMatchAt (rest.drop 3) with
      | some (g, after) =>
        String.mk pre.reverse :: String.mk g :: reSplitAux [] after
      | none => reSplitAux (c :: pre) rest
    else reSplitAux (c :: pre) rest
termination_by cs.length
decreasing_by
  · have hfind : ∀ (l : List Char) (s i : Nat),
        List.findIdx? (fun x => decide (x = ')')) l s = some i → i < s + l.length := by
      intro l
      induction l with
      | nil =>
        intro s i h
        simp [List.findIdx?] at h
      | cons a t ih =>
        intro s i h
        rw [List.findIdx?_cons] at h
        by_cases hp : (decide (a = ')') : Bool) = true
        · rw [if_pos hp] at h
          simp only [Option.some.injEq] at h
          simp only [List.length_cons]
          omega
        · rw [if_neg hp] at h
          have := ih (s + 1) i h
          simp only [List.length_cons]
          omega
    have hb : after.length + 2 ≤ (rest.drop 3).length := by
      rcases hfi : urlCloseIdx (rest.drop 3) with _ | j
      · simp [urlMatchAt, hfi] at hm
      · simp only [urlMatchAt, hfi, Option.some.injEq, Prod.mk.injEq] at hm
        obtain ⟨-, h2⟩ := hm
        have hj : j < 0 + (((rest.drop 3).takeWhile (· ≠ '\n')).drop 1).length :=
          hfind _ 0 j hfi
        have h1 : ((rest.drop 3).takeWhile (fun c => decide (c ≠ '\n'))).length ≤
            (rest.drop 3).length :=
          (List.takeWhile_sublist _).length_le
        rw [← h2]
        simp only [List.length_drop] at *
        omega
    simp only [List.length_drop, List.length_cons] at *
    omega
  · simp
  · simp

/-- Model of `re.split(r"url\((.+?)\)", content)`. -/
def reSplitUrl (content : String) : List String :=
  reSplitAux [] content.toList

/-- Model of the inner `remove_quotes(url)` of
`download_dependencies_from_css`. Its condition is
`url[0] and url[-1] == "'"`: `url[0]` (which raises `IndexError` on an
empty string) is a one-character string and hence always truthy, so the
test effectively only checks the last character; the first character is
dropped without being examined. -/
def pyRemoveQuotes (url : String) : Except PyErr String :=
  if url.toList = [] then .error .indexError
  else
    let url1 :=
      if url.toList.getLast? = some '\'' then String.mk (url.toList.drop 1).dropLast
      else url
    if url1.toList = [] then .error .indexError
    else
      .ok (if url1.toList.getLast? = some '"' then String.mk (url1.toList.drop 1).dropLast
        else url1)

/-- Model of the inner `encapsulate(url)`. -/
def cssEncapsulate (url : String) : String := "url(" ++ url ++ ")"

/-- Python `f"{x}"` on a value that may be `None`. -/
def pyFString (x : Option String) : String :=
  match x with
  | none => "None"
  | some s => s

/-- Model of the body of the `download_dependencies_from_css` loop for one
odd (URL-argument) part `g`, with `prev` the literal part before it.
`recurse` is the recursive `download_dependencies_from_css` call made for
`@import` targets. A `None` filename in the `@import` branch raises
`TypeError` at `output_path.joinpath(filename)`; in the plain branch the
f-string renders it as the text `None`. -/
def processCssUrl (o : Oracle) (cfg : ScraperCfg)
    (recurse : Fs → String → String → String → String → String → Fs × Except PyErr Unit)
    (cssOrg : UrlParts) (cssPath opfc netloc pos : String) (fs : Fs) (prev g : String) :
    Fs × Except PyErr String :=
  match pyRemoveQuotes g with
  | .error e => (fs, .error e)
  | .ok css_url0 =>
    if pyStartsWith "://" css_url0 || pyStartsWith "data:" css_url0 || pyStartsWith "#" css_url0 then
      (fs, .ok (cssEncapsulate css_url0))
    else
      let parsed_url := pyUrlparse css_url0
      let css_url :=
        if parsed_url.netloc = "" then
          if pyStartsWith "/" parsed_url.path then
            (if cssOrg.netloc ≠ "" then cssOrg.netloc else netloc) ++ css_url0
          else
            let pathPre0 := cssOrg.path
            let pathPre := if pySuffix pathPre0 ≠ "" then pyParent pathPre0 else pathPre0
            cssOrg.netloc ++ pyPathStr (pyJoin pathPre css_url0)
        else css_url0
      let output_path := if ¬ pyTruthyStr opfc then pyParent cssPath else pyJoin cssPath opfc
      if pyEndsWith "@import " prev then
        match downloadAndGetFilename o cfg fs css_url output_path netloc pos (some ".css") none with
        | (fs1, .error e) => (fs1, .error e)
        | (fs1, .ok r) =>
          match r.map Prod.fst with
          | none => (fs1, .error .typeError)
          | some fn =>
            let parsed_css_url := pyUrlparse css_url
            match recurse fs1 css_url (pyJoin output_path fn) "" parsed_css_url.netloc
                (pyParent parsed_css_url.path) with
            | (fs2, .error e) => (fs2, .error e)
            | (fs2, .ok ()) =>
              let fixed :=
                if ¬ pyTruthyStr opfc then pyFString (some fn)
                else opfc ++ "/" ++ pyFString (some fn)
              (fs2, .ok (cssEncapsulate fixed))
      else
        match downloadAndGetFilename o cfg fs css_url output_path netloc pos none none with
        | (fs1, .error e) => (fs1, .error e)
        | (fs1, .ok r) =>
          let fixed :=
            if ¬ pyTruthyStr opfc then pyFString (r.map Prod.fst)
            else opfc ++ "/" ++ pyFString (r.map Prod.fst)
          (fs1, .ok (cssEncapsulate fixed))

/-- The `for index, _ in enumerate(parts)` loop: even parts are CSS code
and pass through, odd parts are rewritten by `processCssUrl`. The
recursion consumes a literal/argument pair per step, so the head of each
recursive call is again a literal part. -/
def cssPartsLoop (o : Oracle) (cfg : ScraperCfg)
    (recurse : Fs → String → String → String → String → String → Fs × Except PyErr Unit)
    (cssOrg : UrlParts) (cssPath opfc netloc pos : String) :
    Fs → List String → Fs × Except PyErr (List String)
  | fs, [] => (fs, .ok [])
  | fs, [p] => (fs, .ok [p])
  | fs, p :: g :: rest =>
    match processCssUrl o cfg recurse cssOrg cssPath opfc netloc pos fs p g with
    | (fs1, .error e) => (fs1, .error e)
    | (fs1, .ok g2) =>
      match cssPartsLoop o cfg recurse cssOrg cssPath opfc netloc pos fs1 rest with
      | (fs2, .error e) => (fs2, .error e)
      | (fs2, .ok rest2) => (fs2, .ok (p :: g2 :: rest2))

/-- Model of `HtmlProcessor.download_dependencies_from_css(css_org_url,
css_path, output_path_from_css, netloc, path_on_server)`. The first
argument is the recursion budget for nested `@import` chains (the Python
recursion is bounded only by the stack); all theorems below hold for
every budget. -/
def downloadDependenciesFromCss (o : Oracle) (cfg : ScraperCfg) :
    Nat → Fs → String → String → String → String → String → Fs × Except PyErr Unit
  | 0, fs, _, _, _, _, _ => (fs, .ok ())
  | fuel + 1, fs, cssOrgUrl, cssPath, opfc, netloc, pos =>
    let cssOrg := pyUrlparse (prepareUrl cssOrgUrl netloc pos)
    match fsRead fs cssPath with
    | none => (fs, .error .fileNotFound)
    | some content =>
      let parts := reSplitUrl content
      match cssPartsLoop o cfg
          (fun fs1 a b c d e => downloadDependenciesFromCss o cfg fuel fs1 a b c d e)
          cssOrg cssPath opfc netloc pos fs parts with
      | (fs1, .error e) => (fs1, .error e)
      | (fs1, .ok parts2) => (fsWrite fs1 cssPath (String.join parts2), .ok ())

/-! ## HTML asset scanners (download_*_from_html) -/

/-- The `f"{filename}" if not path_from_html else f"{path_from_html}/{filename}"`
expression every scanner uses to point an attribute at the local copy. -/
def localRef (pathFromHtml fn : String) : String :=
  if ¬ pyTruthyStr pathFromHtml then fn else pathFromHtml ++ "/" ++ fn

/-- Loop of `download_images_from_html`: for every `<img>` with a `src`,
download and, when a filename came back, point `src` at it and append
the `max-width` style. -/
def scanImagesLoop (o : Oracle) (cfg : ScraperCfg)
    (outputPath pathFromHtml netloc pos : String) :
    Fs → List Element → Fs × Except PyErr (List Element)
  | fs, [] => (fs, .ok [])
  | fs, el :: rest =>
    let step : Fs × Except PyErr Element :=
      if el.tag = "img" ∧ el.hasAttr "src" then
        match downloadAndGetFilename o cfg fs (elemAttrStr el "src") outputPath netloc pos
            none none with
        | (fs1, .error e) => (fs1, .error e)
        | (fs1, .ok dl) =>
          let filename := dl.map Prod.fst
          if pyTruthyOptStr filename then
            let el1 := el.setAttr "src" (some (localRef pathFromHtml (pyFString filename)))
            let el2 :=
              if el1.hasAttr "style" then
                el1.setAttr "style" (some (elemAttrStr el1 "style" ++ " max-width:100%"))
              else el1.setAttr "style" (some " max-width:100%")
            (fs1, .ok el2)
          else (fs1, .ok el)
      else (fs, .ok el)
    match step with
    | (fs1, .error e) => (fs1, .error e)
    | (fs1, .ok el2) =>
      match scanImagesLoop o cfg outputPath pathFromHtml netloc pos fs1 rest with
      | (fs2, .error e) => (fs2, .error e)
      | (fs2, .ok els) => (fs2, .ok (el2 :: els))

/-- Model of `HtmlProcessor.download_images_from_html`: the boolean is the
function's return value `bool(imgs)` — whether the xpath query found any
`<img>` at all. -/
def downloadImagesFromHtml (o : Oracle) (cfg : ScraperCfg) (fs : Fs) (body : List Element)
    (outputPath pathFromHtml netloc pos : String) :
    Fs × Except PyErr (List Element × Bool) :=
  match scanImagesLoop o cfg outputPath pathFromHtml netloc pos fs body with
  | (fs1, .error e) => (fs1, .error e)
  | (fs1, .ok els) => (fs1, .ok (els, body.any (·.tag == "img")))

/-- Loop of `download_documents_from_html`: anchors restricted to the
downloadable-extension allowlist; recognized audio formats get a
synthesized `audio_player.html` wrapper page (written once) and the
anchor points at the wrapper. -/
def scanDocsLoop (o : Oracle) (cfg : ScraperCfg)
    (outputPath pathFromHtml rootFromHtml netloc pos : String) :
    Fs → List Element → Fs × Except PyErr (List Element)
  | fs, [] => (fs, .ok [])
  | fs, el :: rest =>
    let step : Fs × Except PyErr Element :=
      if el.tag = "a" ∧ el.hasAttr "href" then
        match downloadAndGetFilename o cfg fs (elemAttrStr el "href") outputPath netloc pos
            none (some DOWNLOADABLE_EXTENSIONS) with
        | (fs1, .error e) => (fs1, .error e)
        | (fs1, .ok dl) =>
          let filename := dl.map Prod.fst
          if pyTruthyOptStr filename then
            let fn0 := pyFString filename
            let file_format := (pySuffix fn0).drop 1
            let (fs2, fn) :=
              if file_format ∈ AUDIO_FORMATS then
                let html_fpath := pyJoin outputPath (((pySplitChar '.' fn0).headD "") ++ ".html")
                let fs2 :=
                  if ¬ fsExists fs1 html_fpath then
                    fsWrite fs1 html_fpath (o.jinjaAudioPage fn0)
                  else fs1
                (fs2, pyPathName html_fpath)
              else (fs1, fn0)
            (fs2, .ok (el.setAttr "href" (some (localRef pathFromHtml fn))))
          else (fs1, .ok el)
      else (fs, .ok el)
    match step with
    | (fs1, .error e) => (fs1, .error e)
    | (fs1, .ok el2) =>
      match scanDocsLoop o cfg outputPath pathFromHtml rootFromHtml netloc pos fs1 rest with
      | (fs2, .error e) => (fs2, .error e)
      | (fs2, .ok els) => (fs2, .ok (el2 :: els))

/-- Model of `HtmlProcessor.download_documents_from_html`; the boolean is
`bool(anchors)`. -/
def downloadDocumentsFromHtml (o : Oracle) (cfg : ScraperCfg) (fs : Fs) (body : List Element)
    (outputPath pathFromHtml rootFromHtml netloc pos : String) :
    Fs × Except PyErr (List Element × Bool) :=
  match scanDocsLoop o cfg outputPath pathFromHtml rootFromHtml netloc pos fs body with
  | (fs1, .error e) => (fs1, .error e)
  | (fs1, .ok els) => (fs1, .ok (els, body.any (·.tag == "a")))

/-- Loop of `download_css_from_html`: `<link href>` stylesheets; on a
fresh download, recurse into the stylesheet's dependencies seeded with
the link's own host/path context. -/
def scanCssLoop (o : Oracle) (cfg : ScraperCfg) (fuel : Nat)
    (outputPath pathFromHtml netloc pos : String) :
    Fs → List Element → Fs × Except PyErr (List Element)
  | fs, [] => (fs, .ok [])
  | fs, el :: rest =>
    let step : Fs × Except PyErr Element :=
      if el.tag = "link" ∧ el.hasAttr "href" then
        match downloadAndGetFilename o cfg fs (elemAttrStr el "href") outputPath netloc pos
            none none with
        | (fs1, .error e) => (fs1, .error e)
        | (fs1, .ok dl) =>
          let filename := dl.map Prod.fst
          let fresh_download := dl.map Prod.snd
          if pyTruthyOptStr filename then
            let afterCss : Fs × Except PyErr Unit :=
              if fresh_download = some true then
                let pn := getPathAndNetlocToSend netloc pos (elemAttrStr el "href")
                downloadDependenciesFromCss o cfg fuel fs1 (elemAttrStr el "href")
                  (pyJoin outputPath (pyFString filename)) "" pn.2 pn.1
              else (fs1, .ok ())
            match afterCss with
            | (fs2, .error e) => (fs2, .error e)
            | (fs2, .ok ()) =>
              (fs2, .ok (el.setAttr "href" (some (localRef pathFromHtml (pyFString filename)))))
          else (fs1, .ok el)
      else (fs, .ok el)
    match step with
    | (fs1, .error e) => (fs1, .error e)
    | (fs1, .ok el2) =>
      match scanCssLoop o cfg fuel outputPath pathFromHtml netloc pos fs1 rest with
      | (fs2, .error e) => (fs2, .error e)
      | (fs2, .ok els) => (fs2, .ok (el2 :: els))

/-- Model of `HtmlProcessor.download_css_from_html`; the boolean is
`bool(css_files)`. -/
def downloadCssFromHtml (o : Oracle) (cfg : ScraperCfg) (fuel : Nat) (fs : Fs)
    (body : List Element) (outputPath pathFromHtml netloc pos : String) :
    Fs × Except PyErr (List Element × Bool) :=
  match scanCssLoop o cfg fuel outputPath pathFromHtml netloc pos fs body with
  | (fs1, .error e) => (fs1, .error e)
  | (fs1, .ok els) => (fs1, .ok (els, body.any (·.tag == "link")))

/-- Loop of `download_js_from_html`: `<script src>`. -/
def scanJsLoop (o : Oracle) (cfg : ScraperCfg)
    (outputPath pathFromHtml netloc pos : String) :
    Fs → List Element → Fs × Except PyErr (List Element)
  | fs, [] => (fs, .ok [])
  | fs, el :: rest =>
    let step : Fs × Except PyErr Element :=
      if el.tag = "script" ∧ el.hasAttr "src" then
        match downloadAndGetFilename o cfg fs (elemAttrStr el "src") outputPath netloc pos
            none none with
        | (fs1, .error e) => (fs1, .error e)
        | (fs1, .ok dl) =>
          let filename := dl.map Prod.fst
          if pyTruthyOptStr filename then
            (fs1, .ok (el.setAttr "src" (some (localRef pathFromHtml (pyFString filename)))))
          else (fs1, .ok el)
      else (fs, .ok el)
    match step with
    | (fs1, .error e) => (fs1, .error e)
    | (fs1, .ok el2) =>
      match scanJsLoop o cfg outputPath pathFromHtml netloc pos fs1 rest with
      | (fs2, .error e) => (fs2, .error e)
      | (fs2, .ok els) => (fs2, .ok (el2 :: els))

/-- Model of `HtmlProcessor.download_js_from_html`; the boolean is
`bool(js_files)`. -/
def downloadJsFromHtml (o : Oracle) (cfg : ScraperCfg) (fs : Fs) (body : List Element)
    (outputPath pathFromHtml netloc pos : String) :
    Fs × Except PyErr (List Element × Bool) :=
  match scanJsLoop o cfg outputPath pathFromHtml netloc pos fs body with
  | (fs1, .error e) => (fs1, .error e)
  | (fs1, .ok els) => (fs1, .ok (els, body.any (·.tag == "script")))

/-- Loop of `download_sources_from_html`: `<source src>`. -/
def scanSourcesLoop (o : Oracle) (cfg : ScraperCfg)
    (outputPath pathFromHtml netloc pos : String) :
    Fs → List Element → Fs × Except PyErr (List Element)
  | fs, [] => (fs, .ok [])
  | fs, el :: rest =>
    let step : Fs × Except PyErr Element :=
      if el.tag = "source" ∧ el.hasAttr "src" then
        match downloadAndGetFilename o cfg fs (elemAttrStr el "src") outputPath netloc pos
            none none with
        | (fs1, .error e) => (fs1, .error e)
        | (fs1, .ok dl) =>
          let filename := dl.map Prod.fst
          if pyTruthyOptStr filename then
            (fs1, .ok (el.setAttr "src" (some (localRef pathFromHtml (pyFString filename)))))
          else (fs1, .ok el)
      else (fs, .ok el)
    match step with
    | (fs1, .error e) => (fs1, .error e)
    | (fs1, .ok el2) =>
      match scanSourcesLoop o cfg outputPath pathFromHtml netloc pos fs1 rest with
      | (fs2, .error e) => (fs2, .error e)
      | (fs2, .ok els) => (fs2, .ok (el2 :: els))

/-- Model of `HtmlProcessor.download_sources_from_html`; the boolean is
`bool(sources)`. -/
def downloadSourcesFromHtml (o : Oracle) (cfg : ScraperCfg) (fs : Fs) (body : List Element)
    (outputPath pathFromHtml netloc pos : String) :
    Fs × Except PyErr (List Element × Bool) :=
  match scanSourcesLoop o cfg outputPath pathFromHtml netloc pos fs body with
  | (fs1, .error e) => (fs1, .error e)
  | (fs1, .ok els) => (fs1, .ok (els, body.any (·.tag == "source")))

/-- Loop of `download_iframes_from_html`: three branches by URL shape —
youtube embeds become a rendered video fragment replacing the iframe,
`.pdf` embeds are localized in place, and anything else is fetched and
recursively processed as a sub-document (`recurse` is the recursive
`dl_dependencies_and_fix_links` call), saved under a hash-derived name. -/
def scanIframesLoop (o : Oracle) (cfg : ScraperCfg)
    (recurse : Fs → String → String → String → String → Option String → String →
      Fs × Except PyErr String)
    (outputPath pathFromHtml rootFromHtml netloc pos : String) :
    Fs → List Element → Fs × Except PyErr (List Element)
  | fs, [] => (fs, .ok [])
  | fs, el :: rest =>
    let step : Fs × Except PyErr Element :=
      if el.tag = "iframe" ∧ el.hasAttr "src" then
        let src := elemAttrStr el "src"
        if pyIn "youtube" src then
          match downloadAndGetFilename o cfg fs src outputPath netloc pos
              (some ("." ++ cfg.videoFormat)) none with
          | (fs1, .error e) => (fs1, .error e)
          | (fs1, .ok dl) =>
            let filename := dl.map Prod.fst
            if pyTruthyOptStr filename then
              (fs1, .ok (o.jinjaVideoFragment (localRef pathFromHtml (pyFString filename))))
            else (fs1, .ok el)
        else if pyIn ".pdf" src then
          match downloadAndGetFilename o cfg fs src outputPath netloc pos none none with
          | (fs1, .error e) => (fs1, .error e)
          | (fs1, .ok dl) =>
            let filename := dl.map Prod.fst
            if pyTruthyOptStr filename then
              (fs1, .ok (el.setAttr "src" (some (localRef pathFromHtml (pyFString filename)))))
            else (fs1, .ok el)
        else
          let iframe_url := prepareUrl src netloc ""
          match o.getPage iframe_url with
          | none => (fs, .ok el)
          | some src_content =>
            let pn := getPathAndNetlocToSend netloc pos iframe_url
            match recurse fs src_content outputPath ""
                (getRootFromAsset pathFromHtml rootFromHtml) (some pn.2) pn.1 with
            | (fs1, .error e) => (fs1, .error e)
            | (fs1, .ok modified_content) =>
              let filename := xxh64hex src ++ ".html"
              let fs2 := fsWrite fs1 (pyJoin outputPath filename) modified_content
              (fs2, .ok (el.setAttr "src" (some (localRef pathFromHtml filename))))
      else (fs, .ok el)
    match step with
    | (fs1, .error e) => (fs1, .error e)
    | (fs1, .ok el2) =>
      match scanIframesLoop o cfg recurse outputPath pathFromHtml rootFromHtml netloc pos
          fs1 rest with
      | (fs2, .error e) => (fs2, .error e)
      | (fs2, .ok els) => (fs2, .ok (el2 :: els))

/-- Model of `HtmlProcessor.download_iframes_from_html`; the boolean is
`bool(iframes)`. -/
def downloadIframesFromHtml (o : Oracle) (cfg : ScraperCfg)
    (recurse : Fs → String → String → String → String → Option String → String →
      Fs × Except PyErr String)
    (fs : Fs) (body : List Element)
    (outputPath pathFromHtml rootFromHtml netloc pos : String) :
    Fs × Except PyErr (List Element × Bool) :=
  match scanIframesLoop o cfg recurse outputPath pathFromHtml rootFromHtml netloc pos
      fs body with
  | (fs1, .error e) => (fs1, .error e)
  | (fs1, .ok els) => (fs1, .ok (els, body.any (·.tag == "iframe")))

/-- The per-anchor step of `scanDocsLoop`, factored out verbatim so the
proofs can reason about one element at a time. -/
def scanDocsStep (o : Oracle) (cfg : ScraperCfg)
    (outputPath pathFromHtml netloc pos : String) (fs : Fs) (el : Element) :
    Fs × Except PyErr Element :=
  if el.tag = "a" ∧ el.hasAttr "href" then
    match downloadAndGetFilename o cfg fs (elemAttrStr el "href") outputPath netloc pos
        none (some DOWNLOADABLE_EXTENSIONS) with
    | (fs1, .error e) => (fs1, .error e)
    | (fs1, .ok dl) =>
      let filename := dl.map Prod.fst
      if pyTruthyOptStr filename then
        let fn0 := pyFString filename
        let file_format := (pySuffix fn0).drop 1
        let (fs2, fn) :=
          if file_format ∈ AUDIO_FORMATS then
            let html_fpath := pyJoin outputPath (((pySplitChar '.' fn0).headD "") ++ ".html")
            let fs2 :=
              if ¬ fsExists fs1 html_fpath then
                fsWrite fs1 html_fpath (o.jinjaAudioPage fn0)
              else fs1
            (fs2, pyPathName html_fpath)
          else (fs1, fn0)
        (fs2, .ok (el.setAttr "href" (some (localRef pathFromHtml fn))))
      else (fs1, .ok el)
  else (fs, .ok el)

/-- The seven per-category results `dl_dependencies_and_fix_links`
aggregates: the local variables `imgs, docs, css_files, js_files,
sources, iframes` and `rewritten_links` of the source. -/
structure ScanFlags where
  imgs : Bool
  docs : Bool
  css_files : Bool
  js_files : Bool
  sources : Bool
  iframes : Bool
  rewritten_links : Bool
deriving Repr, DecidableEq

/-- The `any([imgs, docs, css_files, js_files, sources, iframes,
rewritten_links])` aggregate. -/
def ScanFlags.anyOf (f : ScanFlags) : Bool :=
  f.imgs || f.docs || f.css_files || f.js_files || f.sources || f.iframes ||
    f.rewritten_links

/-- The scan pipeline of `dl_dependencies_and_fix_links`: the six
downloaders in source order followed by `rewrite_internal_links`,
threading the mutated body through and collecting the seven results.
`recurse` is the recursive `dl_dependencies_and_fix_links` call the
iframe scanner makes; `fuel` is the `@import` recursion budget handed to
the CSS machinery. -/
def dlScanAll (o : Oracle) (cfg : ScraperCfg) (fuel : Nat)
    (recurse : Fs → String → String → String → String → Option String → String →
      Fs × Except PyErr String)
    (fs : Fs) (body : List Element)
    (outputPath pathFromHtml rootFromHtml netloc pos : String) :
    Fs × Except PyErr (List Element × ScanFlags) :=
  match downloadImagesFromHtml o cfg fs body outputPath pathFromHtml netloc pos with
  | (fs1, .error e) => (fs1, .error e)
  | (fs1, .ok (body1, imgs)) =>
    match downloadDocumentsFromHtml o cfg fs1 body1 outputPath pathFromHtml rootFromHtml
        netloc pos with
    | (fs2, .error e) => (fs2, .error e)
    | (fs2, .ok (body2, docs)) =>
      match downloadCssFromHtml o cfg fuel fs2 body2 outputPath pathFromHtml netloc pos with
      | (fs3, .error e) => (fs3, .error e)
      | (fs3, .ok (body3, css_files)) =>
        match downloadJsFromHtml o cfg fs3 body3 outputPath pathFromHtml netloc pos with
        | (fs4, .error e) => (fs4, .error e)
        | (fs4, .ok (body4, js_files)) =>
          match downloadSourcesFromHtml o cfg fs4 body4 outputPath pathFromHtml netloc pos with
          | (fs5, .error e) => (fs5, .error e)
          | (fs5, .ok (body5, sources)) =>
            match downloadIframesFromHtml o cfg recurse fs5 body5 outputPath pathFromHtml
                rootFromHtml netloc pos with
            | (fs6, .error e) => (fs6, .error e)
            | (fs6, .ok (body6, iframes)) =>
              let rw := rewriteInternalLinks cfg body6 rootFromHtml netloc
              (fs6, .ok (rw.1,
                { imgs := imgs, docs := docs, css_files := css_files,
                  js_files := js_files, sources := sources, iframes := iframes,
                  rewritten_links := rw.2 }))

/-- Model of `HtmlProcessor.dl_dependencies_and_fix_links(content,
output_path, path_from_html, root_from_html, netloc, path_on_server)`.
The `Nat` is the recursion budget for nested iframe sub-documents (the
Python recursion is bounded only by the stack; every theorem below holds
for each budget). The content string is re-serialized from the parsed
body exactly when the `any([...])` aggregate of the seven scan results
is true; otherwise the incoming `content` object is returned as-is. -/
def dlDependenciesAndFixLinks (o : Oracle) (cfg : ScraperCfg) :
    Nat → Fs → String → String → String → String → Option String → String →
      Fs × Except PyErr String
  | 0, fs, content, _, _, _, _, _ => (fs, .ok content)
  | fuel + 1, fs, content, outputPath, pathFromHtml, rootFromHtml, netlocOpt, pos =>
    let netloc := if pyTruthyOptStr netlocOpt then netlocOpt.getD "" else cfg.instance_url
    let body := o.fromstring content
    match dlScanAll o cfg fuel
        (fun f c op pfh rfh nl ps =>
          dlDependenciesAndFixLinks o cfg fuel f c op pfh rfh nl ps)
        fs body outputPath pathFromHtml rootFromHtml netloc pos with
    | (fs6, .error e) => (fs6, .error e)
    | (fs6, .ok (body6, flags)) =>
      if flags.anyOf then (fs6, .ok (o.tostring body6))
      else (fs6, .ok content)

/-! ## HtmlProcessor.defer_scripts -/

/-- One `<script>` tag step of the `defer_scripts` loop. Inline scripts
with non-blank content are written to an output file named by the hash
of the content's first 200 characters and the tag is rewritten to load
that file deferred; a tag whose `.string` is `None` makes
`None.strip()` raise `AttributeError`. -/
def deferScriptStep (o : Oracle) (fs : Fs) (outputPath pathFromHtml : String)
    (el : Element) : Fs × Except PyErr Element :=
  if el.hasAttr "type" ∧ elemAttrStr el "type" ≠ "text/javascript" ∧
      elemAttrStr el "type" ≠ "application/javascript" then
    (fs, .ok el)
  else if el.hasAttr "defer" then (fs, .ok el)
  else if el.hasAttr "src" then (fs, .ok (el.setAttr "defer" none))
  else
    match el.text with
    | none => (fs, .error .attrError)
    | some t =>
      if pyTruthyStr (pyStrip t) then
        let script_content := pyStrip t
        let hashed :=
          if script_content.length > 200 then pyTake 200 script_content else script_content
        let filename := xxh64hex hashed ++ ".js"
        let fpath := pyJoin outputPath filename
        let fs1 := fsWrite fs fpath script_content
        let el1 := ((el.setText (some "")).setAttr "src"
          (some (localRef pathFromHtml filename))).setAttr "defer" none
        (fs1, .ok el1)
      else (fs, .ok el)

/-- Loop of `defer_scripts` over `soup.find_all("script")`; non-script
elements pass through. -/
def deferScriptsLoop (o : Oracle) (outputPath pathFromHtml : String) :
    Fs → List Element → Fs × Except PyErr (List Element)
  | fs, [] => (fs, .ok [])
  | fs, el :: rest =>
    let step :=
      if el.tag = "script" then deferScriptStep o fs outputPath pathFromHtml el
      else (fs, .ok el)
    match step with
    | (fs1, .error e) => (fs1, .error e)
    | (fs1, .ok el2) =>
      match deferScriptsLoop o outputPath pathFromHtml fs1 rest with
      | (fs2, .error e) => (fs2, .error e)
      | (fs2, .ok els) => (fs2, .ok (el2 :: els))

/-- Model of `HtmlProcessor.defer_scripts(content, output_path,
path_from_html)` at the level of the parsed soup (the surrounding
`BeautifulSoup(content, "lxml")` parse and final `str(soup)` are the
markup oracle's concern). -/
def deferScripts (o : Oracle) (fs : Fs) (soup : List Element)
    (outputPath pathFromHtml : String) : Fs × Except PyErr (List Element) :=
  deferScriptsLoop o outputPath pathFromHtml fs soup

/-! ## Spec-side definitions for refinement comparison -/

/-- Join a list of pieces with a separator (Python `sep.join`). -/
def joinWith (sep : String) : List String → String
  | [] => ""
  | [x] => x
  | x :: xs => x ++ sep ++ joinWith sep xs

/-- The LocalAsset naming rule exactly as spec §3 words it, written from
the spec for comparison against the source-derived `computeFilename`:
"if the source URL path has a file extension, the local filename is the
original basename with extension normalized to the requested extension;
if it has no extension, the filename is a stable hash of the source URL
plus extension". The basename is the text after the path's last slash;
it has a file extension when it contains a dot, the extension being the
part from the last dot on. -/
def filenameSpec (src : String) (withExt : Option String) : String :=
  let path := (pyUrlparse src).path
  let base := (pySplitChar '/' path).getLastD ""
  let pieces := pySplitChar '.' base
  if pieces.length ≥ 2 then
    joinWith "." pieces.dropLast ++ withExt.getD ("." ++ pieces.getLastD "")
  else
    xxh64hex src ++ withExt.getD ""

/-- The basename the spec's naming rule speaks about: the text after the
URL path's last slash. -/
def urlBasename (src : String) : String :=
  (pySplitChar '/' (pyUrlparse src).path).getLastD ""

/-- Inverse of the `url()` split: interleave the literal parts (even
indices) with `url(...)`-wrapped argument parts (odd indices). That this
recovers the original stylesheet text is what makes the even/odd reading
of `re.split(r"url\((.+?)\)", ...)` correct. -/
def cssRejoin : List String → String
  | [] => ""
  | [p] => p
  | p :: g :: rest => p ++ "url(" ++ g ++ ")" ++ cssRejoin rest

/-! ## Concrete fixtures for the closed theorems and witnesses -/

/-- A deterministic collaborator oracle: the metadata probe fails with a
(non-timeout) request error, plain downloads succeed, image optimization
runs and reports no gain, parsing yields one paragraph element. -/
def fxOracle : Oracle :=
  { headOutcome := fun _ _ => .reqError
    guessExt := fun _ => none
    optimizerVersions := fun _ => "3"
    saveLargeFileOk := fun _ => true
    urlContent := fun url => "bytes:" ++ url
    tmpName := fun f _ => f ++ ".tmp"
    youtube := fun _ _ => none
    optimizeImage := fun _ => .ok false
    convertVideo := fun _ _ => .ok none
    getPage := fun _ => none
    fromstring := fun s => [{ tag := "p", attrs := [], text := some s }]
    tostring := fun _ => "SERIALIZED"
    jinjaVideoFragment := fun p => { tag := "div", attrs := [("class", some "video")], text := some p }
    jinjaAudioPage := fun p => "audio:" ++ p }

/-- An external cache holding one entry written by optimizer version 2. -/
def fxS3 : S3State :=
  { entries := [("png/host.example/img.png/default",
      ([("version", "etag-1"), ("optimizer_version", "2")], "cached-bytes"))]
    downloadOk := true
    uploadOk := true }

/-- The non-page child `c1` of the C2 scenario: type `html`, id `def456`. -/
def fxChild : XBlockExtractor :=
  .mk { type := "html", block_id := "def456",
        lms_web_url := "https://host.example/courses/c1x/jump_to/def456" }
    "course/chapter-1/seq-1/unit-1/comp-1" []

/-- The vertical `v1` of the C2 scenario: type `vertical`, id `abc123`,
with `c1` as its only descendant. -/
def fxVertical : XBlockExtractor :=
  .mk { type := "vertical", block_id := "abc123",
        lms_web_url := "https://host.example/courses/c1x/jump_to/abc123" }
    "course/chapter-1/seq-1/unit-1" [fxChild]

/-- Scraper configuration fixture (no external cache). -/
def fxCfg : ScraperCfg :=
  { instance_url := "https://host.example"
    coursePre := "/courses/"
    course_id := "c1x"
    videoFormat := "mp4"
    lowQuality := false
    useAnyOptimizedVersion := false
    s3 := none
    xblocks := [fxChild, fxVertical]
    tabPath := fun _ => none }

/-- The same configuration with the external cache attached. -/
def fxCfgS3 : ScraperCfg := { fxCfg with s3 := some fxS3 }

/-- An `<img>` element with no `src` attribute. -/
def fxImgNoSrc : Element := { tag := "img", attrs := [("alt", some "x")], text := none }

/-- A 200-character script prefix shared by the two C10 scripts. -/
def fxScriptPre : String := String.mk (List.replicate 200 'x')

/-! # Theorems -/

/-- C1: the claim says materializing the same extension-bearing URL twice
in one directory yields the identical filename both times, fetches only
once, and reports fresh = false the second time. The code cannot deliver
the first part: `download_file` has no `return` with a value on any path
(scraper.py lines 827-851), so its caller's `if self.scraper.download_file(...)`
(html_processor.py line 44) is always falsy and every first-time
materialization returns `(None, None)` — even though the fetch happened
and the file was written. Only the second call returns the filename.
This closed run exhibits it: first call returns `.ok none` yet performs
the one network fetch and leaves `out/logo.png` on disk; the second call
finds the file and returns `("logo.png", False)` without fetching. -/
theorem c1_download_file_never_reports_success :
    downloadAndGetFilename fxOracle fxCfg fsEmpty "https://host.example/img/logo.png" "out"
        "https://host.example" "" none none =
      ({ files := [("out/logo.png", "bytes:https://host.example/img/logo.png")],
         fetches := ["https://host.example/img/logo.png"], uploads := [] }, .ok none) ∧
    downloadAndGetFilename fxOracle fxCfg
        { files := [("out/logo.png", "bytes:https://host.example/img/logo.png")],
          fetches := ["https://host.example/img/logo.png"], uploads := [] }
        "https://host.example/img/logo.png" "out" "https://host.example" "" none none =
      ({ files := [("out/logo.png", "bytes:https://host.example/img/logo.png")],
         fetches := ["https://host.example/img/logo.png"], uploads := [] },
        .ok (some ("logo.png", false))) ∧
    (downloadFile fxOracle fxCfg fsEmpty "https://host.example/img/logo.png"
        "out/logo.png").ret = .ok none :=
  ⟨rfl, rfl, rfl⟩

/-- C2: in the claimed scenario — vertical `v1` (id `abc123`) with
non-page child `c1` (id `def456`), jump-to link ending in
`jump_to/def456` — the claim expects resolution to `v1`'s path plus
`/index.html` via the one-level parent retry. The code's retry passes
`src_path.parent` to `handle_jump_to_paths`, and the parent path of
`.../jump_to/def456` ends in the literal segment `jump_to`, which can
never equal a block id (and no unit's `lms_web_url` path equals the
parent path), so the retry matches nothing: resolution yields `None`
and the anchor is rewritten to the live-instance URL instead of
`v1`'s local page — even though `v1` is present and
`check_descendants_and_return_path` would produce exactly the claimed
path if the retry could reach it. -/
theorem c2_parent_retry_cannot_reach_vertical :
    resolveJumpTo [fxChild, fxVertical] "/courses/c1x/jump_to/def456" = none ∧
    checkDescendantsAndReturnPath fxVertical =
      some "course/chapter-1/seq-1/unit-1/index.html" ∧
    pyPartsLast (pyParent "/courses/c1x/jump_to/def456") = "jump_to" ∧
    xblockMatchesTarget "/courses/c1x/jump_to/def456" fxChild = true ∧
    processAnchor fxCfg "../../" fxCfg.instance_url
        { tag := "a", attrs := [("href", some "/courses/c1x/jump_to/def456")], text := none } =
      ({ tag := "a",
         attrs := [("href", some "https://host.example/courses/c1x/jump_to/def456")],
         text := none }, true) :=
  ⟨rfl, rfl, rfl, rfl, rfl⟩

/-- C3: a cache entry whose stored `optimizer_version` is `"2"` while the
current optimizer version is `"3"` is a miss when
`use_any_optimized_version` is false and a hit (the cached artifact is
written to `fpath`) when the flag is true — the flag makes
`download_from_cache` send `optimizer_version: None`, which the cache's
matching treats as accept-any; and any metadata mismatch at all makes
`download_from_cache` return `False`, never raise (its transfer `try`
swallows exceptions; the model is total). -/
theorem c3_cache_optimizer_version_gate
    (o : Oracle) (s3 : S3State) (fs : Fs) (key fpath m : String)
    (stored : List (String × String)) (content : String)
    (hentry : List.lookup key s3.entries = some (stored, content))
    (hver : List.lookup "version" stored = some m)
    (hopt : List.lookup "optimizer_version" stored = some "2")
    (hcur : o.optimizerVersions (cacheFiletype fpath) = "3")
    (hm : m ≠ "")
    (hdl : s3.downloadOk = true) :
    (downloadFromCache o s3 false fs key fpath (some m)).2 = false ∧
    downloadFromCache o s3 true fs key fpath (some m) = (fsWrite fs fpath content, true) ∧
    (∀ (useAny : Bool) (meta : Option String) (fs1 : Fs),
      s3HasObjectMatching s3 key (cacheMetaDict o useAny fpath meta) = false →
      (downloadFromCache o s3 useAny fs1 key fpath meta).2 = false) := by
  refine ⟨?_, ?_, ?_⟩
  · simp [downloadFromCache, s3HasObject, s3HasObjectMatching, cacheMetaDict, hentry, hver,
      hopt, hcur, pyTruthyOptStr, hm]
  · simp [downloadFromCache, s3HasObject, s3HasObjectMatching, cacheMetaDict, hentry, hver,
      hopt, hcur, pyTruthyOptStr, hm, hdl]
  · intro useAny meta fs1 hmiss
    unfold downloadFromCache
    by_cases h1 : s3HasObject s3 key = true
    · by_cases h2 : pyTruthyOptStr meta = true
      · simp [h1, h2, hmiss]
      · simp [h1, Bool.eq_false_iff.mpr h2]
    · simp [Bool.eq_false_iff.mpr h1]

/-- C3 witness: the concrete store `fxS3` holds one entry written by
optimizer version 2 while `fxOracle` reports current version 3. -/
theorem c3_cache_optimizer_version_gate_witness :
    (downloadFromCache fxOracle fxS3 false fsEmpty "png/host.example/img.png/default"
        "x.png" (some "etag-1")).2 = false ∧
    downloadFromCache fxOracle fxS3 true fsEmpty "png/host.example/img.png/default"
        "x.png" (some "etag-1") = (fsWrite fsEmpty "x.png" "cached-bytes", true) :=
  ⟨(c3_cache_optimizer_version_gate fxOracle fxS3 fsEmpty
      "png/host.example/img.png/default" "x.png" "etag-1"
      [("version", "etag-1"), ("optimizer_version", "2")] "cached-bytes"
      rfl rfl rfl rfl (by decide) rfl).1,
    (c3_cache_optimizer_version_gate fxOracle fxS3 fsEmpty
      "png/host.example/img.png/default" "x.png" "etag-1"
      [("version", "etag-1"), ("optimizer_version", "2")] "cached-bytes"
      rfl rfl rfl rfl (by decide) rfl).2.1⟩

theorem headLoop_fst_le (o : Oracle) (url : String) :
    ∀ (n used : Nat), (headLoop o url used n).1 ≤ used + n := by
  intro n
  induction n with
  | zero => intro used; simp [headLoop]
  | succ n ih =>
    intro used
    cases h : o.headOutcome url used with
    | timeout =>
      have := ih (used + 1)
      simp only [headLoop, h]
      omega
    | reqError => simp [headLoop, h]
    | ok hs => simp [headLoop, h]

theorem headLoop_timeouts (o : Oracle) (url : String) :
    ∀ (n used : Nat),
    (∀ i, used ≤ i → i < used + n → o.headOutcome url i = .timeout) →
    headLoop o url used n = (used + n, none) := by
  intro n
  induction n with
  | zero => intro used h; simp [headLoop]
  | succ n ih =>
    intro used h
    have ht : o.headOutcome url used = .timeout := h used le_rfl (by omega)
    have := ih (used + 1) (fun i h1 h2 => h i (by omega) (by omega))
    simp only [headLoop, ht, this]
    congr 1
    omega

theorem headLoop_reqError (o : Oracle) (url : String) :
    ∀ (n used i : Nat), used ≤ i → i < used + n →
    (∀ j, used ≤ j → j < i → o.headOutcome url j = .timeout) →
    o.headOutcome url i = .reqError →
    headLoop o url used n = (i + 1, none) := by
  intro n
  induction n with
  | zero => intro used i h1 h2; omega
  | succ n ih =>
    intro used i h1 h2 htmo herr
    rcases Nat.eq_or_lt_of_le h1 with heq | hlt
    · subst heq
      simp [headLoop, herr]
    · have ht : o.headOutcome url used = .timeout := htmo used le_rfl hlt
      simp only [headLoop, ht]
      exact ih (used + 1) i hlt (by omega) (fun j hj1 hj2 => htmo j (by omega) hj2) herr

theorem getMetaFromUrl_fst (o : Oracle) (url : String) :
    (getMetaFromUrl o url).1 = (getResponseHeaders o url).1 := by
  unfold getMetaFromUrl
  rcases h : getResponseHeaders o url with ⟨n, r⟩
  rcases r with _ | hs
  · rfl
  · simp only
    repeat' split
    all_goals rfl

/-- C7: the upstream freshness probe issues at most five HEAD attempts;
when every attempt times out the retry budget is exhausted and
`get_meta_from_url` returns `(None, None)` rather than raising (the
raised `Max retries exceeded` is swallowed by its outer handler), and a
non-timeout request error on any attempt likewise ends the probe with
`(None, None)` instead of propagating. -/
theorem c7_meta_probe_bounded_and_defensive (o : Oracle) (url : String) :
    (getMetaFromUrl o url).1 ≤ 5 ∧
    ((∀ i, i < 5 → o.headOutcome url i = .timeout) →
      getMetaFromUrl o url = (5, .ok (none, none))) ∧
    (∀ i, i < 5 → (∀ j, j < i → o.headOutcome url j = .timeout) →
      o.headOutcome url i = .reqError →
      getMetaFromUrl o url = (i + 1, .ok (none, none))) := by
  refine ⟨?_, ?_, ?_⟩
  · rw [getMetaFromUrl_fst]
    have := headLoop_fst_le o url 5 0
    simpa [getResponseHeaders] using this
  · intro h
    have hl : getResponseHeaders o url = (5, none) := by
      have := headLoop_timeouts o url 5 0 (fun i _ h2 => h i (by omega))
      simpa [getResponseHeaders] using this
    unfold getMetaFromUrl
    rw [hl]
  · intro i hi htmo herr
    have hl : getResponseHeaders o url = (i + 1, none) := by
      have := headLoop_reqError o url 5 0 i (Nat.zero_le i) (by omega)
        (fun j _ hj2 => htmo j hj2) herr
      simpa [getResponseHeaders] using this
    unfold getMetaFromUrl
    rw [hl]

/-- C7 witness: `fxOracle` raises a non-timeout request error on the very
first attempt, so the probe stops after one request and degrades to
`(None, None)`. -/
theorem c7_meta_probe_witness :
    getMetaFromUrl fxOracle "https://host.example/x" = (1, .ok (none, none)) :=
  (c7_meta_probe_bounded_and_defensive fxOracle "https://host.example/x").2.2 0
    (by decide) (fun j hj => absurd hj (Nat.not_lt_zero j)) rfl

theorem pyTake_of_le (n : Nat) (s : String) (h : s.length ≤ n) : pyTake n s = s := by
  unfold pyTake
  cases s with
  | mk data =>
    congr 1
    exact List.take_of_length_le h

theorem fsRead_fsWrite (fs : Fs) (p c : String) : fsRead (fsWrite fs p c) p = some c := by
  simp [fsRead, fsWrite, List.lookup]

/-- C10: `defer_scripts` names an externalized inline script after the
hash of only the first 200 characters of its (stripped) content. Two
distinct inline scripts agreeing on those 200 characters therefore get
the same filename; processed in order into the same directory, the
second write overwrites the first, the surviving file holds the second
script's content, and both rewritten tags load that same file. -/
theorem c10_defer_scripts_first200_collision
    (o : Oracle) (fs : Fs) (outputPath pathFromHtml t1 t2 : String)
    (h1 : pyStrip t1 ≠ "") (h2 : pyStrip t2 ≠ "")
    (hne : pyStrip t2 ≠ pyStrip t1)
    (hpre : pyTake 200 (pyStrip t1) = pyTake 200 (pyStrip t2)) :
    (deferScripts o fs
        [{ tag := "script", attrs := [], text := some t1 },
         { tag := "script", attrs := [], text := some t2 }] outputPath pathFromHtml) =
      (fsWrite (fsWrite fs (pyJoin outputPath (xxh64hex (pyTake 200 (pyStrip t1)) ++ ".js"))
          (pyStrip t1))
        (pyJoin outputPath (xxh64hex (pyTake 200 (pyStrip t1)) ++ ".js")) (pyStrip t2),
       .ok [{ tag := "script",
              attrs := [("src", some (localRef pathFromHtml
                  (xxh64hex (pyTake 200 (pyStrip t1)) ++ ".js"))), ("defer", none)],
              text := some "" },
            { tag := "script",
              attrs := [("src", some (localRef pathFromHtml
                  (xxh64hex (pyTake 200 (pyStrip t1)) ++ ".js"))), ("defer", none)],
              text := some "" }]) ∧
    fsRead (deferScripts o fs
        [{ tag := "script", attrs := [], text := some t1 },
         { tag := "script", attrs := [], text := some t2 }] outputPath pathFromHtml).1
      (pyJoin outputPath (xxh64hex (pyTake 200 (pyStrip t1)) ++ ".js")) =
      some (pyStrip t2) ∧
    pyStrip t2 ≠ pyStrip t1 := by
  have hh1 : (if (pyStrip t1).length > 200 then pyTake 200 (pyStrip t1) else pyStrip t1) =
      pyTake 200 (pyStrip t1) := by
    split
    · rfl
    · exact (pyTake_of_le 200 (pyStrip t1) (by omega)).symm
  have hh2 : (if (pyStrip t2).length > 200 then pyTake 200 (pyStrip t2) else pyStrip t2) =
      pyTake 200 (pyStrip t2) := by
    split
    · rfl
    · exact (pyTake_of_le 200 (pyStrip t2) (by omega)).symm
  have hmain : (deferScripts o fs
      [{ tag := "script", attrs := [], text := some t1 },
       { tag := "script", attrs := [], text := some t2 }] outputPath pathFromHtml) =
      (fsWrite (fsWrite fs (pyJoin outputPath (xxh64hex (pyTake 200 (pyStrip t1)) ++ ".js"))
          (pyStrip t1))
        (pyJoin outputPath (xxh64hex (pyTake 200 (pyStrip t1)) ++ ".js")) (pyStrip t2),
       .ok [{ tag := "script",
              attrs := [("src", some (localRef pathFromHtml
                  (xxh64hex (pyTake 200 (pyStrip t1)) ++ ".js"))), ("defer", none)],
              text := some "" },
            { tag := "script",
              attrs := [("src", some (localRef pathFromHtml
                  (xxh64hex (pyTake 200 (pyStrip t1)) ++ ".js"))), ("defer", none)],
              text := some "" }]) := by
    simp only [deferScripts, deferScriptsLoop, deferScriptStep, Element.hasAttr,
      Element.getAttr, Element.setAttr, Element.setText, List.lookup, pyTruthyStr, h1, h2]
    rw [hh1, hh2, ← hpre]
    simp [h1, h2]
  refine ⟨hmain, ?_, hne⟩
  rw [hmain]
  exact fsRead_fsWrite _ _ _

set_option maxRecDepth 4000 in
/-- C10 witness: two scripts sharing a 200-character prefix but differing
afterwards. -/
theorem c10_defer_scripts_first200_collision_witness :
    (deferScripts fxOracle fsEmpty
        [{ tag := "script", attrs := [], text := some (fxScriptPre ++ "A") },
         { tag := "script", attrs := [], text := some (fxScriptPre ++ "B") }] "out" "assets").2 =
      .ok [{ tag := "script",
             attrs := [("src", some (localRef "assets"
                 (xxh64hex (pyTake 200 (pyStrip (fxScriptPre ++ "A"))) ++ ".js"))),
               ("defer", none)],
             text := some "" },
           { tag := "script",
             attrs := [("src", some (localRef "assets"
                 (xxh64hex (pyTake 200 (pyStrip (fxScriptPre ++ "A"))) ++ ".js"))),
               ("defer", none)],
             text := some "" }] ∧
    fsRead (deferScripts fxOracle fsEmpty
        [{ tag := "script", attrs := [], text := some (fxScriptPre ++ "A") },
         { tag := "script", attrs := [], text := some (fxScriptPre ++ "B") }] "out" "assets").1
      (pyJoin "out" (xxh64hex (pyTake 200 (pyStrip (fxScriptPre ++ "A"))) ++ ".js")) =
      some (pyStrip (fxScriptPre ++ "B")) := by
  have h := c10_defer_scripts_first200_collision fxOracle fsEmpty "out" "assets"
    (fxScriptPre ++ "A") (fxScriptPre ++ "B") (by decide) (by decide) (by decide) (by decide)
  exact ⟨by rw [h.1], h.2.1⟩

theorem mem_take_findIdx_not {α : Type} (p : α → Bool) :
    ∀ (l : List α) (x : α), x ∈ l.take (l.findIdx p) → p x = false := by
  intro l
  induction l with
  | nil => intro x hx; simp at hx
  | cons a t ih =>
    intro x hx
    rw [List.findIdx_cons] at hx
    cases hpa : p a with
    | true => simp [hpa] at hx
    | false =>
      simp only [hpa, cond_false, List.take_succ_cons, List.mem_cons] at hx
      rcases hx with rfl | hx
      · exact hpa
      · exact ih x hx

theorem urlNetlocSplit_no_slash (cs : List Char) : '/' ∉ (urlNetlocSplit cs).1 := by
  unfold urlNetlocSplit
  split
  · intro hmem
    have := mem_take_findIdx_not (fun c => c = '/' || c = '?' || c = '#') (cs.drop 2) '/' hmem
    simp at this
  · simp

theorem pyUrlparse_netloc_no_slash (url : String) : '/' ∉ (pyUrlparse url).netloc.toList := by
  have h : (pyUrlparse url).netloc = String.mk (urlNetlocSplit (urlSchemeSplit url.toList).2).1 :=
    rfl
  rw [h]
  exact urlNetlocSplit_no_slash _

/-- The archived instance URL always carries its scheme, so it contains a
slash and can never equal a parsed netloc. -/
theorem netloc_ne_instance_url (url H : String) :
    (pyUrlparse url).netloc ≠ "https://" ++ H := by
  intro heq
  have hn := pyUrlparse_netloc_no_slash url
  rw [heq] at hn
  apply hn
  have : ("https://" ++ H).toList = "https://".toList ++ H.toList := by
    simp [String.toList]
  rw [this]
  exact List.mem_append_left _ (by decide)

/-- C4: link classification in `rewrite_internal_links` (invoked with the
top-level `netloc`, which defaults to the scraper's instance URL
`https://H`): an anchor whose href parses to any non-empty network
location different from the instance is skipped untouched — in fact any
non-empty netloc is, since the code compares the netloc against the
scheme-carrying `instance_url` — and an anchor with a host-rooted href
that does not start with the known course path prefix is rewritten to
the live-instance URL `https://H` + href. -/
theorem c4_link_classification (cfg : ScraperCfg) (H root : String) (a b : Element)
    (hrefExt hrefLoc : String)
    (hinst : cfg.instance_url = "https://" ++ H)
    (haExt : a.getAttr "href" = some (some hrefExt))
    (hnl : (pyUrlparse hrefExt).netloc ≠ "")
    (hb : b.getAttr "href" = some (some hrefLoc))
    (hbn : (pyUrlparse hrefLoc).netloc = "")
    (hbp : (pyUrlparse hrefLoc).path = hrefLoc)
    (hroot : pyStartsWith "/" hrefLoc = true)
    (hpre : pyStartsWith (coursePathStart cfg) hrefLoc = false) :
    processAnchor cfg root cfg.instance_url a = (a, false) ∧
    processAnchor cfg root cfg.instance_url b =
      (b.setAttr "href" (some ("https://" ++ H ++ hrefLoc)), true) := by
  constructor
  · have hne : (pyUrlparse hrefExt).netloc ≠ cfg.instance_url := by
      rw [hinst]
      exact netloc_ne_instance_url hrefExt H
    simp [processAnchor, Element.hasAttr, elemAttrStr, haExt, hnl, hne]
  · simp only [processAnchor, Element.hasAttr, elemAttrStr, hb, Option.getD_some,
      Option.isSome_some, Bool.not_true, hbn, hbp, hpre, hroot]
    simp [updateRootRelativePath, pyTruthyOptStr, elemAttrStr, hb, hinst, String.append_assoc]

/-- C4 witness: against `fxCfg` (instance `https://host.example`), an
anchor to `https://other.example/x` is untouched and `/tabs/info`
(outside the `/courses/c1x` prefix) is rewritten to the live instance. -/
theorem c4_link_classification_witness :
    processAnchor fxCfg "../../" fxCfg.instance_url
        { tag := "a", attrs := [("href", some "https://other.example/x")], text := none } =
      ({ tag := "a", attrs := [("href", some "https://other.example/x")], text := none },
        false) ∧
    processAnchor fxCfg "../../" fxCfg.instance_url
        { tag := "a", attrs := [("href", some "/tabs/info")], text := none } =
      ({ tag := "a", attrs := [("href", some "https://host.example/tabs/info")],
         text := none }, true) :=
  c4_link_classification fxCfg "host.example" "../../"
    { tag := "a", attrs := [("href", some "https://other.example/x")], text := none }
    { tag := "a", attrs := [("href", some "/tabs/info")], text := none }
    "https://other.example/x" "/tabs/info"
    rfl rfl (by decide) rfl rfl rfl rfl rfl

/-- C6: write-through after successful transform only. In
`download_file`, `upload_to_cache` is invoked exactly when an external
cache is configured and the `optimize_file` step ran and returned a
truthy result; whenever the optimization step was reached but raised or
returned a falsy result, nothing is uploaded and the call returns the
falsy `None` (so the fetch reports failure to its caller either way). -/
theorem c6_upload_write_through (o : Oracle) (cfg : ScraperCfg) (fs : Fs) (url fpath : String) :
    ((downloadFile o cfg fs url fpath).uploaded = true ↔
      (cfg.s3.isSome = true ∧ ∃ v,
        (downloadFile o cfg fs url fpath).optResult = some (.ok v) ∧
        pyTruthyOptBool v = true)) ∧
    (∀ r, (downloadFile o cfg fs url fpath).optResult = some r →
      (r = .error () ∨ ∃ v, r = .ok v ∧ pyTruthyOptBool v = false) →
      (downloadFile o cfg fs url fpath).uploaded = false ∧
        (downloadFile o cfg fs url fpath).ret = .ok none) := by
  unfold downloadFile
  rcases hmr : getMetaFromUrl o url with ⟨n, mr⟩
  cases mr with
  | error e => simp
  | ok p =>
    rcases p with ⟨meta, filetype⟩
    simp only
    rcases hdc : (match cfg.s3 with
      | some s3 =>
        downloadFromCache o s3 cfg.useAnyOptimizedVersion fs
          (generateS3Key cfg url fpath) fpath meta
      | none => (fs, false)) with ⟨fsA, hit⟩
    cases hit with
    | true => rw [hdc]; simp
    | false =>
      rw [hdc]
      simp only
      rcases hdl : (if pyIn "youtube" url then downloadFromYoutube o fsA url fpath
          else downlaodFormUrl o fsA url fpath filetype) with ⟨fsB, dfile⟩
      simp only
      cases dfile with
      | none => simp
      | some df =>
        rw [if_neg (show ¬(false = true) by decide)]
        split
        · rename_i h0
          exact absurd h0 (by simp)
        · rename_i dfile h0
          split
          · simp
          · rename_i fs1 optimized heq
            by_cases hcond : (cfg.s3.isSome = true ∧ pyTruthyOptBool optimized = true)
            · cases hs3 : cfg.s3 with
              | none => rw [hs3] at hcond; simp at hcond
              | some s3 =>
                rw [hs3] at hcond
                rw [if_pos hcond]
                refine ⟨⟨fun _ => ⟨rfl, ⟨optimized, rfl, hcond.2⟩⟩, fun _ => rfl⟩, ?_⟩
                intro r hr hbad
                simp only [Option.some.injEq] at hr
                subst hr
                rcases hbad with hbad | ⟨v, hv, hfv⟩
                · cases hbad
                · cases hv
                  rw [hcond.2] at hfv
                  cases hfv
            · rw [if_neg hcond]
              constructor
              · constructor
                · intro h
                  cases h
                · rintro ⟨hs, v, hv, htv⟩
                  simp only [Option.some.injEq] at hv
                  exact absurd ⟨hs, by cases hv; exact htv⟩ hcond
              · intro r hr hbad
                exact ⟨rfl, rfl⟩

set_option maxRecDepth 4000 in
/-- Witness for C6: a concrete run against the cache-backed configuration
in which the optimizer reports `False`; the upload is skipped and the
call returns `None`. -/
theorem c6_upload_write_through_witness :
    (downloadFile fxOracle fxCfgS3 fsEmpty "https://host.example/pic.png" "out/pic.png").uploaded = false ∧
    (downloadFile fxOracle fxCfgS3 fsEmpty "https://host.example/pic.png" "out/pic.png").ret = .ok none :=
  (c6_upload_write_through fxOracle fxCfgS3 fsEmpty "https://host.example/pic.png" "out/pic.png").2
    (.ok (some false)) rfl (Or.inr ⟨some false, rfl, rfl⟩)

/-! ## The split and suffix algebra behind the naming rule (C5) -/

theorem listSplit_ne_nil (sep : Char) (l : List Char) : listSplit sep l ≠ [] := by
  cases l with
  | nil => simp [listSplit]
  | cons c r =>
    simp only [listSplit]
    by_cases h : c = sep
    · simp [h]
    · simp only [if_neg h]
      cases listSplit sep r <;> simp

theorem listSplit_append_sep (sep : Char) (l1 l2 : List Char) :
    listSplit sep (l1 ++ sep :: l2) = listSplit sep l1 ++ listSplit sep l2 := by
  induction l1 with
  | nil => simp [listSplit]
  | cons c r ih =>
    by_cases h : c = sep
    · subst h
      simp [listSplit, ih]
    · rcases hr : listSplit sep r with _ | ⟨g, gs⟩
      · exact absurd hr (listSplit_ne_nil sep r)
      · simp only [List.cons_append, listSplit, if_neg h, List.append_eq, ih, hr]

theorem listSplit_of_not_mem (sep : Char) (l : List Char) (h : sep ∉ l) :
    listSplit sep l = [l] := by
  induction l with
  | nil => rfl
  | cons c r ih =>
    simp only [List.mem_cons, not_or] at h
    have hcs : ¬ c = sep := fun hc => h.1 hc.symm
    simp only [listSplit, ih h.2]
    rw [if_neg hcs]

theorem mk_append_mk (as bs : List Char) :
    String.mk as ++ String.mk bs = String.mk (as ++ bs) := rfl

theorem str_eq_mk_toList (s : String) : s = String.mk s.toList := by
  cases s
  rfl

theorem strAppend_assoc (a b c : String) : a ++ b ++ c = a ++ (b ++ c) := by
  cases a with | mk x => ?_
  cases b with | mk y => ?_
  cases c with | mk z => ?_
  rw [mk_append_mk, mk_append_mk, mk_append_mk, mk_append_mk, List.append_assoc]

theorem joinWith_cons_cons (s x y : String) (rest : List String) :
    joinWith s (x :: y :: rest) = x ++ s ++ joinWith s (y :: rest) := rfl

theorem joinWith_map_listSplit (l : List Char) :
    joinWith "." ((listSplit '.' l).map String.mk) = String.mk l := by
  induction l with
  | nil => rfl
  | cons c r ih =>
    rcases hr : listSplit '.' r with _ | ⟨g, gs⟩
    · exact absurd hr (listSplit_ne_nil '.' r)
    · rw [hr] at ih
      simp only [List.map_cons] at ih
      by_cases h : c = '.'
      · subst h
        have hs : listSplit '.' ('.' :: r) = [] :: g :: gs := by
          simp [listSplit, hr]
        rw [hs, List.map_cons, List.map_cons, joinWith_cons_cons, ih]
        rfl
      · simp only [listSplit, if_neg h, hr, List.map_cons]
        cases gs with
        | nil =>
          have h2 : String.mk g = String.mk r := ih
          have hg : g = r := by injection h2
          subst hg
          rfl
        | cons y t =>
          simp only [List.map_cons] at ih ⊢
          rw [joinWith_cons_cons] at ih ⊢
          calc String.mk (c :: g) ++ "." ++ joinWith "." (String.mk y :: List.map String.mk t)
              = String.mk [c] ++ (String.mk g ++ "." ++ joinWith "." (String.mk y :: List.map String.mk t)) := by
                rw [show String.mk (c :: g) = String.mk [c] ++ String.mk g from rfl,
                  strAppend_assoc (String.mk [c]) (String.mk g) ".",
                  strAppend_assoc (String.mk [c]) (String.mk g ++ ".")]
            _ = String.mk [c] ++ String.mk r := by rw [ih]
            _ = String.mk (c :: r) := rfl

theorem getLastD_filter_concat {α : Type} (p : α → Bool) (l : List α) (a d : α)
    (h : p a = true) : ((l ++ [a]).filter p).getLastD d = a := by
  rw [List.filter_append]
  simp only [List.filter_cons, List.filter_nil, h, if_pos]
  exact List.getLastD_concat _ _ _

theorem findIdx_false_then_true {α : Type} (p : α → Bool) (l1 : List α) (a : α) (l2 : List α)
    (h1 : ∀ x ∈ l1, p x = false) (ha : p a = true) :
    ∀ s, List.findIdx? p (l1 ++ a :: l2) s = some (s + l1.length) := by
  induction l1 with
  | nil =>
    intro s
    simp [List.findIdx?, ha]
  | cons x r ih =>
    intro s
    have hx : p x = false := h1 x (by simp)
    simp only [List.cons_append, List.findIdx?, hx, List.append_eq]
    rw [if_neg (show ¬(false = true) by decide)]
    rw [ih (fun y hy => h1 y (by simp [hy])) (s + 1)]
    congr 1
    simp only [List.length_cons]
    omega

theorem findIdx_none_of_all_false {α : Type} (p : α → Bool) (l : List α)
    (h : ∀ x ∈ l, p x = false) : ∀ s, List.findIdx? p l s = none := by
  induction l with
  | nil => intro s; rfl
  | cons x r ih =>
    intro s
    simp only [List.findIdx?, h x (by simp), cond_false]
    exact ih (fun y hy => h y (by simp [hy])) (s + 1)

theorem exists_last_dot (cs : List Char) (h : '.' ∈ cs) :
    ∃ pre post, cs = pre ++ '.' :: post ∧ '.' ∉ post := by
  induction cs with
  | nil => cases h
  | cons c r ih =>
    by_cases hr : '.' ∈ r
    · obtain ⟨pre, post, he, hn⟩ := ih hr
      exact ⟨c :: pre, post, by rw [he]; rfl, hn⟩
    · have hc : c = '.' := by
        rcases List.mem_cons.mp h with h | h
        · exact h.symm
        · exact absurd h hr
      exact ⟨[], r, by simp [hc], hr⟩

theorem pyNameSuffix_decomp (pre post : List Char) (hpre : pre ≠ []) (hpost : post ≠ [])
    (hn : '.' ∉ post) :
    pyNameSuffix (String.mk (pre ++ '.' :: post)) = String.mk ('.' :: post) := by
  have hrev : (pre ++ '.' :: post).reverse = post.reverse ++ '.' :: pre.reverse := by
    simp
  have hfind : List.findIdx? (· = '.') (pre ++ '.' :: post).reverse 0 = some post.length := by
    rw [hrev]
    have := findIdx_false_then_true (fun x => decide (x = '.')) post.reverse '.' pre.reverse
      (fun x hx => by
        simp only [List.mem_reverse] at hx
        simp only [decide_eq_false_iff_not]
        intro hxx
        exact hn (hxx ▸ hx))
      (by simp) 0
    simpa using this
  unfold pyNameSuffix
  simp only
  rw [show (String.mk (pre ++ '.' :: post)).toList = pre ++ '.' :: post from rfl]
  rw [hfind]
  show (if 0 < (pre ++ '.' :: post).length - 1 - post.length ∧
      (pre ++ '.' :: post).length - 1 - post.length < (pre ++ '.' :: post).length - 1 then
      String.mk (List.drop ((pre ++ '.' :: post).length - 1 - post.length) (pre ++ '.' :: post))
    else "") = String.mk ('.' :: post)
  have hlen : (pre ++ '.' :: post).length - 1 - post.length = pre.length := by
    simp only [List.length_append, List.length_cons]
    omega
  rw [hlen]
  rw [if_pos ⟨List.length_pos.mpr hpre, by
    simp only [List.length_append, List.length_cons]
    have := List.length_pos.mpr hpost
    omega⟩]
  exact congrArg String.mk (List.drop_left pre ('.' :: post))

theorem pyNameSuffix_no_dot (cs : List Char) (h : '.' ∉ cs) :
    pyNameSuffix (String.mk cs) = "" := by
  unfold pyNameSuffix
  simp only
  rw [show (String.mk cs).toList = cs from rfl]
  rw [findIdx_none_of_all_false (· = '.') cs.reverse
    (fun x hx => by
      simp only [List.mem_reverse] at hx
      simp only [decide_eq_false_iff_not]
      intro hxx
      exact h (hxx ▸ hx)) 0]

theorem pySplitChar_ne_nil (sep : Char) (s : String) : pySplitChar sep s ≠ [] := by
  unfold pySplitChar
  intro h
  exact listSplit_ne_nil sep s.toList (List.map_eq_nil.mp h)

theorem pyPathName_eq_urlBasename (src : String) (h1 : urlBasename src ≠ "")
    (hdot : urlBasename src ≠ ".") :
    pyPathName (pyUrlparse src).path = urlBasename src := by
  unfold pyPathName pySegs
  have hne : pySplitChar '/' (pyUrlparse src).path ≠ [] := pySplitChar_ne_nil _ _
  obtain ⟨l2, a, hsplit⟩ : ∃ l2 a, pySplitChar '/' (pyUrlparse src).path = l2 ++ [a] :=
    ⟨_, _, (List.dropLast_append_getLast hne).symm⟩
  have hbase : urlBasename src = a := by
    unfold urlBasename
    rw [hsplit, List.getLastD_concat]
  rw [hsplit, hbase]
  exact getLastD_filter_concat _ _ _ _ (by
    rw [← hbase]
    simp [h1, hdot])

theorem pyWithSuffixName_decomp (pre post : List Char) (ext : String)
    (hpre : pre ≠ []) (hpost : post ≠ []) (hn : '.' ∉ post) :
    pyWithSuffixName (String.mk (pre ++ '.' :: post)) ext = String.mk pre ++ ext := by
  unfold pyWithSuffixName
  rw [pyNameSuffix_decomp pre post hpre hpost hn]
  congr 1
  rw [show (String.mk (pre ++ '.' :: post)).toList = pre ++ '.' :: post from rfl]
  have hlen : (String.mk (pre ++ '.' :: post)).length - (String.mk ('.' :: post)).length
      = pre.length := by
    show (pre ++ '.' :: post).length - ('.' :: post).length = pre.length
    simp only [List.length_append, List.length_cons]
    omega
  rw [hlen]
  exact congrArg String.mk (List.take_left pre ('.' :: post))

theorem pySplitChar_decomp (pre post : List Char) (hn : '.' ∉ post) :
    pySplitChar '.' (String.mk (pre ++ '.' :: post)) =
      (listSplit '.' pre).map String.mk ++ [String.mk post] := by
  unfold pySplitChar
  rw [show (String.mk (pre ++ '.' :: post)).toList = pre ++ '.' :: post from rfl]
  rw [listSplit_append_sep, listSplit_of_not_mem '.' post hn]
  simp

/-- C5: for every source URL whose path basename is well formed (non-empty
and neither starting nor ending with a dot, so Python's notion of the
name's extension and the spec's "part from the last dot" agree), and every
requested extension that is not the empty string, the filename computed by
`download_and_get_filename` equals the spec's naming rule: the original
basename with extension normalized to the requested one when the basename
carries an extension, and a stable xxh64 hash of the full URL plus the
extension otherwise. Both sides are pure functions of the URL and the
requested extension, giving the claimed determinism across calls and runs. -/
theorem c5_filename_refines_spec (src : String) (withExt : Option String)
    (h1 : urlBasename src ≠ "")
    (h3 : pyStartsWith "." (urlBasename src) = false)
    (h4 : pyEndsWith "." (urlBasename src) = false)
    (hext : withExt ≠ some "") :
    computeFilename src withExt = filenameSpec src withExt := by
  have hdot1 : urlBasename src ≠ "." := by
    intro h
    rw [h] at h3
    exact absurd h3 (by decide)
  have hA : pyPathName (pyUrlparse src).path = urlBasename src :=
    pyPathName_eq_urlBasename src h1 hdot1
  have hcf : computeFilename src withExt =
      (if pySuffix (pyUrlparse src).path ≠ "" then
        pyWithSuffixName (pyPathName (pyUrlparse src).path)
          (if pyTruthyOptStr withExt then withExt.getD ""
            else pySuffix (pyUrlparse src).path)
      else xxh64hex src ++
        (if pyTruthyOptStr withExt then withExt.getD ""
          else pySuffix (pyUrlparse src).path)) := rfl
  have hfs : filenameSpec src withExt =
      (if (pySplitChar '.' (urlBasename src)).length ≥ 2 then
        joinWith "." (pySplitChar '.' (urlBasename src)).dropLast ++
          withExt.getD ("." ++ (pySplitChar '.' (urlBasename src)).getLastD "")
      else xxh64hex src ++ withExt.getD "") := rfl
  rw [hcf, hfs]
  by_cases hmem : '.' ∈ (urlBasename src).toList
  · obtain ⟨pre, post, hdec, hn⟩ := exists_last_dot _ hmem
    have hbase : urlBasename src = String.mk (pre ++ '.' :: post) := by
      conv_lhs => rw [str_eq_mk_toList (urlBasename src)]
      rw [hdec]
    have hpre : pre ≠ [] := by
      intro hp
      subst hp
      have hsw : pyStartsWith "." (urlBasename src) = true := by
        unfold pyStartsWith
        rw [hdec]
        simp [List.isPrefixOf]
      rw [hsw] at h3
      cases h3
    have hpost : post ≠ [] := by
      intro hp
      subst hp
      have hew : pyEndsWith "." (urlBasename src) = true := by
        unfold pyEndsWith
        rw [hdec]
        rw [show ((pre ++ '.' :: ([] : List Char)).reverse) = '.' :: pre.reverse by simp]
        simp [List.isPrefixOf]
      rw [hew] at h4
      cases h4
    have hsuffix : pySuffix (pyUrlparse src).path = String.mk ('.' :: post) := by
      unfold pySuffix
      rw [hA, hbase]
      exact pyNameSuffix_decomp pre post hpre hpost hn
    rw [hsuffix, hA, hbase, pySplitChar_decomp pre post hn]
    have hne2 : String.mk ('.' :: post) ≠ "" := by
      intro hq
      have h2 : ('.' :: post) = ([] : List Char) := congrArg String.toList hq
      cases h2
    rw [if_pos hne2]
    rw [if_pos (show ((listSplit '.' pre).map String.mk ++ [String.mk post]).length ≥ 2 by
      have := List.length_pos.mpr (listSplit_ne_nil '.' pre)
      simp only [List.length_append, List.length_map, List.length_cons]
      omega)]
    rw [List.dropLast_concat, List.getLastD_concat]
    rw [pyWithSuffixName_decomp pre post _ hpre hpost hn, joinWith_map_listSplit]
    have hargs : (if pyTruthyOptStr withExt then withExt.getD ""
        else String.mk ('.' :: post)) = withExt.getD ("." ++ String.mk post) := by
      cases withExt with
      | none =>
        rw [if_neg (show ¬(pyTruthyOptStr none = true) by simp [pyTruthyOptStr])]
        rfl
      | some e =>
        have he : e ≠ "" := fun h => hext (by rw [h])
        rw [if_pos (show pyTruthyOptStr (some e) = true by simp [pyTruthyOptStr, he])]
        rfl
    rw [hargs]
  · have hsuffix0 : pySuffix (pyUrlparse src).path = "" := by
      unfold pySuffix
      rw [hA, str_eq_mk_toList (urlBasename src)]
      exact pyNameSuffix_no_dot _ hmem
    have hp1 : pySplitChar '.' (urlBasename src) = [urlBasename src] := by
      unfold pySplitChar
      rw [listSplit_of_not_mem '.' _ hmem]
      simp [← str_eq_mk_toList]
    rw [hsuffix0, hp1]
    rw [if_neg (show ¬("" ≠ ("" : String)) by simp)]
    rw [if_neg (show ¬([urlBasename src].length ≥ 2) by simp)]
    have hargs0 : (if pyTruthyOptStr withExt then withExt.getD ""
        else ("" : String)) = withExt.getD "" := by
      cases withExt with
      | none =>
        rw [if_neg (show ¬(pyTruthyOptStr none = true) by simp [pyTruthyOptStr])]
        rfl
      | some e =>
        have he : e ≠ "" := fun h => hext (by rw [h])
        rw [if_pos (show pyTruthyOptStr (some e) = true by simp [pyTruthyOptStr, he])]
    rw [hargs0]

set_option maxRecDepth 4000 in
/-- Witness for C5: the naming-rule refinement applied to a concrete
extension-bearing URL, with every well-formedness hypothesis checked. -/
theorem c5_filename_refines_spec_witness :
    urlBasename "https://host.example/img/logo.png" ≠ "" ∧
    computeFilename "https://host.example/img/logo.png" none
      = filenameSpec "https://host.example/img/logo.png" none :=
  ⟨by decide,
    c5_filename_refines_spec "https://host.example/img/logo.png" none
      (by decide) (by decide) (by decide) (by decide)⟩

/-! ## The url() split algebra (C8) -/

theorem findIdx_start {α : Type} (p : α → Bool) (l : List α) :
    ∀ s, List.findIdx? p l s = (List.findIdx? p l 0).map (· + s) := by
  induction l with
  | nil => intro s; rfl
  | cons a t ih =>
    intro s
    by_cases hp : p a = true
    · simp [List.findIdx?, hp]
    · simp only [List.findIdx?, hp]
      rw [if_neg (by simp [hp]), if_neg (by simp [hp])]
      rw [ih (s + 1), ih 1]
      cases List.findIdx? p t 0 with
      | none => rfl
      | some j =>
        simp only [Option.map_some']
        simp only [Option.some.injEq]
        omega
  
theorem findIdx_zero_decomp {α : Type} (p : α → Bool) (l : List α) (j : Nat)
    (h : List.findIdx? p l 0 = some j) :
    ∃ l1 x l2, l = l1 ++ x :: l2 ∧ l1.length = j ∧ p x = true := by
  induction l generalizing j with
  | nil => cases h
  | cons a t ih =>
    by_cases hp : p a = true
    · refine ⟨[], a, t, rfl, ?_, hp⟩
      simp only [List.findIdx?] at h
      rw [if_pos (by simp [hp])] at h
      simp only [Option.some.injEq] at h
      simp [← h]
    · simp only [List.findIdx?] at h
      rw [if_neg (by simp [hp])] at h
      rw [findIdx_start p t 1] at h
      cases h0 : List.findIdx? p t 0 with
      | none => rw [h0] at h; cases h
      | some j0 =>
        rw [h0] at h
        simp only [Option.map_some', Option.some.injEq] at h
        obtain ⟨l1, x, l2, hd, hl, hx⟩ := ih j0 h0
        exact ⟨a :: l1, x, l2, by rw [hd]; rfl, by simp [hl]; omega, hx⟩

theorem urlMatchAt_decomp (cs g after : List Char)
    (h : urlMatchAt cs = some (g, after)) : cs = g ++ ')' :: after := by
  unfold urlMatchAt at h
  rcases hfi : urlCloseIdx cs with _ | j
  · rw [hfi] at h; cases h
  · rw [hfi] at h
    simp only [Option.some.injEq, Prod.mk.injEq] at h
    obtain ⟨hg, ha⟩ := h
    unfold urlCloseIdx at hfi
    obtain ⟨l1, x, l2, hdec, hlen, hx⟩ := findIdx_zero_decomp _ _ j hfi
    have hxc : x = ')' := of_decide_eq_true hx
    subst hxc
    rcases hT : cs.takeWhile (· ≠ '\n') with _ | ⟨t0, tr⟩
    · rw [hT] at hdec
      simp at hdec
    · rw [hT] at hdec
      simp only [List.drop_one, List.tail_cons] at hdec
      have hcs : cs = (t0 :: l1) ++ ')' :: (l2 ++ cs.dropWhile (· ≠ '\n')) := by
        conv_lhs => rw [← List.takeWhile_append_dropWhile (p := (· ≠ '\n')) (l := cs)]
        rw [hT, hdec]
        simp
      have hg2 : g = t0 :: l1 := by
        rw [← hg]
        conv_lhs => rw [hcs]
        rw [← hlen]
        rw [show 1 + l1.length = (t0 :: l1).length by simp [Nat.add_comm]]
        exact List.take_left _ _
      have ha2 : after = l2 ++ cs.dropWhile (· ≠ '\n') := by
        rw [← ha]
        conv_lhs => rw [hcs]
        rw [← hlen]
        rw [show 1 + l1.length + 1 = ((t0 :: l1) ++ [')']).length by simp; omega]
        rw [show (t0 :: l1) ++ ')' :: (l2 ++ cs.dropWhile (· ≠ '\n'))
            = ((t0 :: l1) ++ [')']) ++ (l2 ++ cs.dropWhile (· ≠ '\n')) by simp]
        exact List.drop_left _ _
      rw [hg2, ha2]
      exact hcs

theorem reSplitAux_nil (pre : List Char) :
    reSplitAux pre [] = [String.mk pre.reverse] := by
  rw [reSplitAux]

theorem reSplitAux_cons_neg (pre : List Char) (c : Char) (rest : List Char)
    (h : ¬(c = 'u' ∧ rest.take 3 = ['r', 'l', '('])) :
    reSplitAux pre (c :: rest) = reSplitAux (c :: pre) rest := by
  rw [reSplitAux]
  rw [if_neg h]

theorem reSplitAux_cons_none (pre : List Char) (c : Char) (rest : List Char)
    (h : c = 'u' ∧ rest.take 3 = ['r', 'l', '('])
    (hm : urlMatchAt (rest.drop 3) = none) :
    reSplitAux pre (c :: rest) = reSplitAux (c :: pre) rest := by
  rw [reSplitAux]
  rw [if_pos h]
  split
  · rename_i g2 after2 heq
    rw [hm] at heq
    cases heq
  · rfl

theorem reSplitAux_cons_pos (pre : List Char) (c : Char) (rest g after : List Char)
    (h : c = 'u' ∧ rest.take 3 = ['r', 'l', '('])
    (hm : urlMatchAt (rest.drop 3) = some (g, after)) :
    reSplitAux pre (c :: rest) = String.mk pre.reverse :: String.mk g :: reSplitAux [] after := by
  rw [reSplitAux]
  rw [if_pos h]
  split
  · rename_i g2 after2 heq
    rw [hm] at heq
    cases heq
    rfl
  · rename_i heq
    rw [hm] at heq
    cases heq

theorem cssRejoin_reSplitAux (n : Nat) :
    ∀ cs : List Char, cs.length ≤ n → ∀ pre,
      cssRejoin (reSplitAux pre cs) = String.mk pre.reverse ++ String.mk cs := by
  induction n with
  | zero =>
    intro cs hlen pre
    have hnil : cs = [] := List.eq_nil_of_length_eq_zero (Nat.le_zero.mp hlen)
    subst hnil
    rw [reSplitAux_nil]
    show String.mk pre.reverse = _
    rw [mk_append_mk]
    simp
  | succ n ih =>
    intro cs hlen pre
    cases cs with
    | nil =>
      rw [reSplitAux_nil]
      show String.mk pre.reverse = _
      rw [mk_append_mk]
      simp
    | cons c rest =>
      by_cases hcond : (c = 'u' ∧ rest.take 3 = ['r', 'l', '('])
      · rcases hm : urlMatchAt (rest.drop 3) with _ | ⟨g, after⟩
        · rw [reSplitAux_cons_none pre c rest hcond hm]
          rw [ih rest (by simp at hlen; omega) (c :: pre)]
          rw [mk_append_mk, mk_append_mk]
          exact congrArg String.mk (by simp)
        · rw [reSplitAux_cons_pos pre c rest g after hcond hm]
          have hdrop := urlMatchAt_decomp _ _ _ hm
          have hrest : rest = ['r', 'l', '('] ++ (g ++ ')' :: after) := by
            conv_lhs => rw [← List.take_append_drop 3 rest]
            rw [hcond.2, hdrop]
          have hafter : after.length ≤ n := by
            have h1 : rest.length = 3 + (g.length + (1 + after.length)) := by
              rw [hrest]
              simp
              omega
            simp only [List.length_cons] at hlen
            omega
          rw [show cssRejoin (String.mk pre.reverse :: String.mk g :: reSplitAux [] after)
              = String.mk pre.reverse ++ "url(" ++ String.mk g ++ ")" ++
                cssRejoin (reSplitAux [] after) from rfl]
          rw [ih after hafter []]
          rw [show (String.mk (([] : List Char).reverse)) = String.mk [] from rfl]
          rw [show ("url(" : String) = String.mk ['u', 'r', 'l', '('] from rfl]
          rw [show (")" : String) = String.mk [')'] from rfl]
          simp only [mk_append_mk]
          exact congrArg String.mk (by
            rw [hrest, hcond.1]
            simp)
      · rw [reSplitAux_cons_neg pre c rest hcond]
        rw [ih rest (by simp at hlen; omega) (c :: pre)]
        rw [mk_append_mk, mk_append_mk]
        exact congrArg String.mk (by simp)

theorem reSplitAux_length_odd (n : Nat) :
    ∀ cs : List Char, cs.length ≤ n → ∀ pre, (reSplitAux pre cs).length % 2 = 1 := by
  induction n with
  | zero =>
    intro cs hlen pre
    have hnil : cs = [] := List.eq_nil_of_length_eq_zero (Nat.le_zero.mp hlen)
    subst hnil
    rw [reSplitAux_nil]
    rfl
  | succ n ih =>
    intro cs hlen pre
    cases cs with
    | nil =>
      rw [reSplitAux_nil]
      rfl
    | cons c rest =>
      by_cases hcond : (c = 'u' ∧ rest.take 3 = ['r', 'l', '('])
      · rcases hm : urlMatchAt (rest.drop 3) with _ | ⟨g, after⟩
        · rw [reSplitAux_cons_none pre c rest hcond hm]
          exact ih rest (by simp at hlen; omega) (c :: pre)
        · rw [reSplitAux_cons_pos pre c rest g after hcond hm]
          have hdrop := urlMatchAt_decomp _ _ _ hm
          have hafter : after.length ≤ n := by
            have h1 : rest = ['r', 'l', '('] ++ (g ++ ')' :: after) := by
              conv_lhs => rw [← List.take_append_drop 3 rest]
              rw [hcond.2, hdrop]
            have h2 : rest.length = 3 + (g.length + (1 + after.length)) := by
              rw [h1]
              simp
              omega
            simp only [List.length_cons] at hlen
            omega
          have hodd := ih after hafter []
          simp only [List.length_cons]
          omega
      · rw [reSplitAux_cons_neg pre c rest hcond]
        exact ih rest (by simp at hlen; omega) (c :: pre)

theorem pyRemoveQuotes_no_quote (s : String) (h0 : s.toList ≠ [])
    (hq1 : s.toList.getLast? ≠ some '\'') (hq2 : s.toList.getLast? ≠ some '"') :
    pyRemoveQuotes s = .ok s := by
  unfold pyRemoveQuotes
  rw [if_neg h0]
  simp only [if_neg hq1]
  rw [if_neg h0]
  simp only [if_neg hq2]

/-- C8 counterexample: the argument `abc'` is not enclosed in a matching
pair of quotes (its first character is `a`), yet `remove_quotes` alters
it: the condition `url[0] and url[-1] == "'"` only tests the last
character (`url[0]` is a non-empty one-character string, hence truthy),
so both the first and last characters are stripped and `bc` remains. -/
theorem c8_unmatched_quote_strip :
    pyRemoveQuotes (String.push "abc" '\'') = .ok "bc" := rfl

/-- C8 (amended): the split structure is as claimed — re-interleaving
the even (literal) parts with `url(...)`-wrapped odd (argument) parts
recovers the stylesheet byte-for-byte, and the part list has odd length,
so it begins and ends with a literal part. The quote clause is amended
to what the code does: an argument whose last character is neither kind
of quote passes through `remove_quotes` unaltered (enclosure in a
matching pair is not what is tested — see the counterexample). An
argument whose quote-stripped form begins with `://`, `data:` or `#` is
re-emitted inside `url(...)` unchanged. -/
theorem c8_css_split_corrected :
    (∀ content : String, cssRejoin (reSplitUrl content) = content ∧
      (reSplitUrl content).length % 2 = 1) ∧
    (∀ s : String, s.toList ≠ [] →
      s.toList.getLast? ≠ some '\'' → s.toList.getLast? ≠ some '"' →
      pyRemoveQuotes s = .ok s) ∧
    (∀ o cfg recurse cssOrg cssPath opfc netloc pos fs prev g u,
      pyRemoveQuotes g = .ok u →
      (pyStartsWith "://" u || pyStartsWith "data:" u || pyStartsWith "#" u) = true →
      processCssUrl o cfg recurse cssOrg cssPath opfc netloc pos fs prev g
        = (fs, .ok (cssEncapsulate u))) := by
  refine ⟨?_, ?_, ?_⟩
  · intro content
    constructor
    · have h := cssRejoin_reSplitAux content.toList.length content.toList le_rfl []
      unfold reSplitUrl
      rw [h]
      rw [show (String.mk (([] : List Char).reverse)) = String.mk [] from rfl]
      rw [mk_append_mk]
      rw [show ([] : List Char) ++ content.toList = content.toList from rfl]
      exact (str_eq_mk_toList content).symm
    · exact reSplitAux_length_odd content.toList.length content.toList le_rfl []
  · exact pyRemoveQuotes_no_quote
  · intro o cfg recurse cssOrg cssPath opfc netloc pos fs prev g u hrq hstart
    unfold processCssUrl
    rw [hrq]
    simp only
    rw [if_pos hstart]

/-- Witness for C8: the amended quote rule applied to the concrete
argument `abc`, whose last character is no quote: it is unaltered. -/
theorem c8_css_split_corrected_witness :
    pyRemoveQuotes "abc" = .ok "abc" :=
  c8_css_split_corrected.2.1 "abc" (by decide) (by decide) (by decide)

/-! ## Scanner flag semantics (C9) -/

theorem setAttr_tag (e : Element) (k : String) (v : Option String) :
    (e.setAttr k v).tag = e.tag := by
  unfold Element.setAttr
  split <;> rfl

theorem scanImagesLoop_tags (o : Oracle) (cfg : ScraperCfg) (op pfh nl ps : String) :
    ∀ (body : List Element) (fs fs1 : Fs) (els : List Element),
      scanImagesLoop o cfg op pfh nl ps fs body = (fs1, .ok els) →
      els.map (·.tag) = body.map (·.tag) := by
  intro body
  induction body with
  | nil =>
    intro fs fs1 els h
    simp only [scanImagesLoop] at h
    injection h with h1 h2
    injection h2 with h3
    rw [← h3]
  | cons el rest ih =>
    intro fs fs1 els h
    simp only [scanImagesLoop] at h
    split at h
    · simp at h
    · rename_i fsA el2 heq
      split at h
      · simp at h
      · rename_i fsB els2 heq2
        injection h with hfs hr
        injection hr with hels
        subst hels
        have htag : el2.tag = el.tag := by
          split at heq <;>
            try split at heq <;>
              try split at heq <;>
                try split at heq
          all_goals
            try simp only [Prod.mk.injEq, Except.ok.injEq] at heq
          all_goals
            first
            | exact heq.elim
            | (obtain ⟨g1, g2⟩ := heq
               first
               | exact Except.noConfusion g2
               | (subst g2
                  simp [setAttr_tag]))
        simp only [List.map_cons, htag, ih _ _ _ heq2]

theorem scanDocsLoop_cons (o : Oracle) (cfg : ScraperCfg)
    (op pfh rfh nl ps : String) (fs : Fs) (el : Element) (rest : List Element) :
    scanDocsLoop o cfg op pfh rfh nl ps fs (el :: rest) =
      (match scanDocsStep o cfg op pfh nl ps fs el with
       | (fs1, .error e) => (fs1, .error e)
       | (fs1, .ok el2) =>
         match scanDocsLoop o cfg op pfh rfh nl ps fs1 rest with
         | (fs2, .error e) => (fs2, .error e)
         | (fs2, .ok els) => (fs2, .ok (el2 :: els))) := rfl

theorem scanDocsStep_tag (o : Oracle) (cfg : ScraperCfg)
    (op pfh nl ps : String) (fs : Fs) (el : Element) (fsA : Fs) (el2 : Element)
    (h : scanDocsStep o cfg op pfh nl ps fs el = (fsA, .ok el2)) : el2.tag = el.tag := by
  unfold scanDocsStep at h
  by_cases hc : (el.tag = "a" ∧ el.hasAttr "href" = true)
  · rw [if_pos hc] at h
    rcases hdl : downloadAndGetFilename o cfg fs (elemAttrStr el "href") op nl ps none
        (some DOWNLOADABLE_EXTENSIONS) with ⟨fsD, rd⟩
    rw [hdl] at h
    cases rd with
    | error e =>
      simp only [] at h
      simp at h
    | ok dl =>
      simp only [] at h
      by_cases ht : pyTruthyOptStr (dl.map Prod.fst) = true
      · rw [if_pos ht] at h
        try simp only [] at h
        by_cases haud : ((pySuffix (pyFString (dl.map Prod.fst))).drop 1 ∈ AUDIO_FORMATS)
        · rw [if_pos haud] at h
          try simp only [] at h
          simp only [Prod.mk.injEq, Except.ok.injEq] at h
          obtain ⟨h1, h2⟩ := h
          rw [← h2]
          simp [setAttr_tag]
        · rw [if_neg haud] at h
          try simp only [] at h
          simp only [Prod.mk.injEq, Except.ok.injEq] at h
          obtain ⟨h1, h2⟩ := h
          rw [← h2]
          simp [setAttr_tag]
      · rw [if_neg ht] at h
        try simp only [] at h
        simp only [Prod.mk.injEq, Except.ok.injEq] at h
        obtain ⟨h1, h2⟩ := h
        rw [← h2]
  · rw [if_neg hc] at h
    try simp only [] at h
    simp only [Prod.mk.injEq, Except.ok.injEq] at h
    obtain ⟨h1, h2⟩ := h
    rw [← h2]

theorem scanDocsLoop_tags (o : Oracle) (cfg : ScraperCfg) (op pfh rfh nl ps : String) :
    ∀ (body : List Element) (fs fs1 : Fs) (els : List Element),
      scanDocsLoop o cfg op pfh rfh nl ps fs body = (fs1, .ok els) →
      els.map (·.tag) = body.map (·.tag) := by
  intro body
  induction body with
  | nil =>
    intro fs fs1 els h
    simp only [scanDocsLoop] at h
    injection h with h1 h2
    injection h2 with h3
    rw [← h3]
  | cons el rest ih =>
    intro fs fs1 els h
    rw [scanDocsLoop_cons] at h
    split at h
    · simp at h
    · rename_i fsA el2 heq
      split at h
      · simp at h
      · rename_i fsB els2 heq2
        injection h with hfs hr
        injection hr with hels
        subst hels
        simp only [List.map_cons, scanDocsStep_tag _ _ _ _ _ _ _ _ _ _ heq, ih _ _ _ heq2]

set_option maxHeartbeats 1600000 in
theorem scanCssLoop_tags (o : Oracle) (cfg : ScraperCfg) (fuel : Nat) (op pfh nl ps : String) :
    ∀ (body : List Element) (fs fs1 : Fs) (els : List Element),
      scanCssLoop o cfg fuel op pfh nl ps fs body = (fs1, .ok els) →
      els.map (·.tag) = body.map (·.tag) := by
  intro body
  induction body with
  | nil =>
    intro fs fs1 els h
    simp only [scanCssLoop] at h
    injection h with h1 h2
    injection h2 with h3
    rw [← h3]
  | cons el rest ih =>
    intro fs fs1 els h
    simp only [scanCssLoop] at h
    split at h
    · simp at h
    · rename_i fsA el2 heq
      split at h
      · simp at h
      · rename_i fsB els2 heq2
        injection h with hfs hr
        injection hr with hels
        subst hels
        have htag : el2.tag = el.tag := by
          split at heq <;>
            try split at heq <;>
              try split at heq <;>
                try split at heq <;>
                  try split at heq <;>
                    try split at heq
          all_goals
            try simp only [Prod.mk.injEq, Except.ok.injEq] at heq
          all_goals
            first
            | exact heq.elim
            | (obtain ⟨g1, g2⟩ := heq
               first
               | exact Except.noConfusion g2
               | (subst g2
                  simp [setAttr_tag]))
        simp only [List.map_cons, htag, ih _ _ _ heq2]

set_option maxHeartbeats 1600000 in
theorem scanJsLoop_tags (o : Oracle) (cfg : ScraperCfg) (op pfh nl ps : String) :
    ∀ (body : List Element) (fs fs1 : Fs) (els : List Element),
      scanJsLoop o cfg op pfh nl ps fs body = (fs1, .ok els) →
      els.map (·.tag) = body.map (·.tag) := by
  intro body
  induction body with
  | nil =>
    intro fs fs1 els h
    simp only [scanJsLoop] at h
    injection h with h1 h2
    injection h2 with h3
    rw [← h3]
  | cons el rest ih =>
    intro fs fs1 els h
    simp only [scanJsLoop] at h
    split at h
    · simp at h
    · rename_i fsA el2 heq
      split at h
      · simp at h
      · rename_i fsB els2 heq2
        injection h with hfs hr
        injection hr with hels
        subst hels
        have htag : el2.tag = el.tag := by
          split at heq <;>
            try split at heq <;>
              try split at heq <;>
                try split at heq <;>
                  try split at heq <;>
                    try split at heq
          all_goals
            try simp only [Prod.mk.injEq, Except.ok.injEq] at heq
          all_goals
            first
            | exact heq.elim
            | (obtain ⟨g1, g2⟩ := heq
               first
               | exact Except.noConfusion g2
               | (subst g2
                  simp [setAttr_tag]))
        simp only [List.map_cons, htag, ih _ _ _ heq2]

set_option maxHeartbeats 1600000 in
theorem scanSourcesLoop_tags (o : Oracle) (cfg : ScraperCfg) (op pfh nl ps : String) :
    ∀ (body : List Element) (fs fs1 : Fs) (els : List Element),
      scanSourcesLoop o cfg op pfh nl ps fs body = (fs1, .ok els) →
      els.map (·.tag) = body.map (·.tag) := by
  intro body
  induction body with
  | nil =>
    intro fs fs1 els h
    simp only [scanSourcesLoop] at h
    injection h with h1 h2
    injection h2 with h3
    rw [← h3]
  | cons el rest ih =>
    intro fs fs1 els h
    simp only [scanSourcesLoop] at h
    split at h
    · simp at h
    · rename_i fsA el2 heq
      split at h
      · simp at h
      · rename_i fsB els2 heq2
        injection h with hfs hr
        injection hr with hels
        subst hels
        have htag : el2.tag = el.tag := by
          split at heq <;>
            try split at heq <;>
              try split at heq <;>
                try split at heq <;>
                  try split at heq <;>
                    try split at heq
          all_goals
            try simp only [Prod.mk.injEq, Except.ok.injEq] at heq
          all_goals
            first
            | exact heq.elim
            | (obtain ⟨g1, g2⟩ := heq
               first
               | exact Except.noConfusion g2
               | (subst g2
                  simp [setAttr_tag]))
        simp only [List.map_cons, htag, ih _ _ _ heq2]

theorem downloadImagesFromHtml_spec (o : Oracle) (cfg : ScraperCfg) (fs : Fs) (body : List Element)
    (op pfh nl ps : String) (fs1 : Fs) (els : List Element) (b : Bool)
    (h : downloadImagesFromHtml o cfg fs body op pfh nl ps = (fs1, .ok (els, b))) :
    b = body.any (·.tag == "img") ∧ els.map (·.tag) = body.map (·.tag) := by
  unfold downloadImagesFromHtml at h
  split at h
  · simp at h
  · rename_i fsX elsX heq
    simp only [Prod.mk.injEq, Except.ok.injEq] at h
    obtain ⟨h1, h2, h3⟩ := h
    refine ⟨h3.symm, ?_⟩
    rw [← h2]
    exact scanImagesLoop_tags o cfg op pfh nl ps _ _ _ _ heq

theorem downloadDocumentsFromHtml_spec (o : Oracle) (cfg : ScraperCfg) (fs : Fs) (body : List Element)
    (op pfh rfh nl ps : String) (fs1 : Fs) (els : List Element) (b : Bool)
    (h : downloadDocumentsFromHtml o cfg fs body op pfh rfh nl ps = (fs1, .ok (els, b))) :
    b = body.any (·.tag == "a") ∧ els.map (·.tag) = body.map (·.tag) := by
  unfold downloadDocumentsFromHtml at h
  split at h
  · simp at h
  · rename_i fsX elsX heq
    simp only [Prod.mk.injEq, Except.ok.injEq] at h
    obtain ⟨h1, h2, h3⟩ := h
    refine ⟨h3.symm, ?_⟩
    rw [← h2]
    exact scanDocsLoop_tags o cfg op pfh rfh nl ps _ _ _ _ heq

theorem downloadCssFromHtml_spec (o : Oracle) (cfg : ScraperCfg) (fuel : Nat) (fs : Fs) (body : List Element)
    (op pfh nl ps : String) (fs1 : Fs) (els : List Element) (b : Bool)
    (h : downloadCssFromHtml o cfg fuel fs body op pfh nl ps = (fs1, .ok (els, b))) :
    b = body.any (·.tag == "link") ∧ els.map (·.tag) = body.map (·.tag) := by
  unfold downloadCssFromHtml at h
  split at h
  · simp at h
  · rename_i fsX elsX heq
    simp only [Prod.mk.injEq, Except.ok.injEq] at h
    obtain ⟨h1, h2, h3⟩ := h
    refine ⟨h3.symm, ?_⟩
    rw [← h2]
    exact scanCssLoop_tags o cfg fuel op pfh nl ps _ _ _ _ heq

theorem downloadJsFromHtml_spec (o : Oracle) (cfg : ScraperCfg) (fs : Fs) (body : List Element)
    (op pfh nl ps : String) (fs1 : Fs) (els : List Element) (b : Bool)
    (h : downloadJsFromHtml o cfg fs body op pfh nl ps = (fs1, .ok (els, b))) :
    b = body.any (·.tag == "script") ∧ els.map (·.tag) = body.map (·.tag) := by
  unfold downloadJsFromHtml at h
  split at h
  · simp at h
  · rename_i fsX elsX heq
    simp only [Prod.mk.injEq, Except.ok.injEq] at h
    obtain ⟨h1, h2, h3⟩ := h
    refine ⟨h3.symm, ?_⟩
    rw [← h2]
    exact scanJsLoop_tags o cfg op pfh nl ps _ _ _ _ heq

theorem downloadSourcesFromHtml_spec (o : Oracle) (cfg : ScraperCfg) (fs : Fs) (body : List Element)
    (op pfh nl ps : String) (fs1 : Fs) (els : List Element) (b : Bool)
    (h : downloadSourcesFromHtml o cfg fs body op pfh nl ps = (fs1, .ok (els, b))) :
    b = body.any (·.tag == "source") ∧ els.map (·.tag) = body.map (·.tag) := by
  unfold downloadSourcesFromHtml at h
  split at h
  · simp at h
  · rename_i fsX elsX heq
    simp only [Prod.mk.injEq, Except.ok.injEq] at h
    obtain ⟨h1, h2, h3⟩ := h
    refine ⟨h3.symm, ?_⟩
    rw [← h2]
    exact scanSourcesLoop_tags o cfg op pfh nl ps _ _ _ _ heq

theorem downloadIframesFromHtml_flag (o : Oracle) (cfg : ScraperCfg)
    (recurse : Fs → String → String → String → String → Option String → String →
      Fs × Except PyErr String)
    (fs : Fs) (body : List Element) (op pfh rfh nl ps : String)
    (fs1 : Fs) (els : List Element) (b : Bool)
    (h : downloadIframesFromHtml o cfg recurse fs body op pfh rfh nl ps = (fs1, .ok (els, b))) :
    b = body.any (·.tag == "iframe") := by
  unfold downloadIframesFromHtml at h
  split at h
  · simp at h
  · rename_i fsX elsX heq
    simp only [Prod.mk.injEq, Except.ok.injEq] at h
    exact h.2.2.symm

theorem any_tag_eq (els body : List Element) (t : String)
    (h : els.map (·.tag) = body.map (·.tag)) :
    els.any (·.tag == t) = body.any (·.tag == t) := by
  have e1 : ∀ l : List Element,
      (l.any fun x => x.tag == t) = ((l.map fun x => x.tag).any fun x => x == t) := by
    intro l
    induction l with
    | nil => rfl
    | cons a r ih => simp [List.any_cons, ih]
  rw [e1, e1, h]

theorem dlScanAll_flags (o : Oracle) (cfg : ScraperCfg) (fuel : Nat)
    (recurse : Fs → String → String → String → String → Option String → String →
      Fs × Except PyErr String)
    (fs : Fs) (body : List Element) (op pfh rfh nl ps : String)
    (fs6 : Fs) (body6 : List Element) (flags : ScanFlags)
    (h : dlScanAll o cfg fuel recurse fs body op pfh rfh nl ps = (fs6, .ok (body6, flags))) :
    flags.imgs = body.any (·.tag == "img") ∧
    flags.docs = body.any (·.tag == "a") ∧
    flags.css_files = body.any (·.tag == "link") ∧
    flags.js_files = body.any (·.tag == "script") ∧
    flags.sources = body.any (·.tag == "source") ∧
    flags.iframes = body.any (·.tag == "iframe") := by
  unfold dlScanAll at h
  split at h
  · simp at h
  · rename_i fs1x body1 imgs heq1
    split at h
    · simp at h
    · rename_i fs2x body2 docs heq2
      split at h
      · simp at h
      · rename_i fs3x body3 css heq3
        split at h
        · simp at h
        · rename_i fs4x body4 js heq4
          split at h
          · simp at h
          · rename_i fs5x body5 sources heq5
            split at h
            · simp at h
            · rename_i fs6x body6x iframes heq6
              try simp only [] at h
              simp only [Prod.mk.injEq, Except.ok.injEq] at h
              obtain ⟨e1, e2, e3⟩ := h
              subst e3
              obtain ⟨hb1, ht1⟩ :=
                downloadImagesFromHtml_spec _ _ _ _ _ _ _ _ _ _ _ heq1
              obtain ⟨hb2, ht2⟩ :=
                downloadDocumentsFromHtml_spec _ _ _ _ _ _ _ _ _ _ _ _ heq2
              obtain ⟨hb3, ht3⟩ :=
                downloadCssFromHtml_spec _ _ _ _ _ _ _ _ _ _ _ _ heq3
              obtain ⟨hb4, ht4⟩ :=
                downloadJsFromHtml_spec _ _ _ _ _ _ _ _ _ _ _ heq4
              obtain ⟨hb5, ht5⟩ :=
                downloadSourcesFromHtml_spec _ _ _ _ _ _ _ _ _ _ _ heq5
              have hb6 :=
                downloadIframesFromHtml_flag _ _ _ _ _ _ _ _ _ _ _ _ _ heq6
              refine ⟨hb1, ?_, ?_, ?_, ?_, ?_⟩
              · rw [hb2]
                exact any_tag_eq _ _ _ ht1
              · rw [hb3]
                exact any_tag_eq _ _ _ (ht2.trans ht1)
              · rw [hb4]
                exact any_tag_eq _ _ _ ((ht3.trans ht2).trans ht1)
              · rw [hb5]
                exact any_tag_eq _ _ _ (((ht4.trans ht3).trans ht2).trans ht1)
              · rw [hb6]
                exact any_tag_eq _ _ _ ((((ht5.trans ht4).trans ht3).trans ht2).trans ht1)

/-- C9 counterexample: an `<img>` element with no `src` attribute is
altered by nothing — the images scanner returns the body untouched and
the file system untouched — yet the category's boolean is `True`,
because `download_images_from_html` returns `bool(imgs)`: whether the
xpath query found `<img>` tags at all, not whether anything changed. -/
theorem c9_presence_not_change :
    downloadImagesFromHtml fxOracle fxCfg fsEmpty [fxImgNoSrc] "out" "" "host.example" ""
      = (fsEmpty, .ok ([fxImgNoSrc], true)) := rfl

/-- C9 (amended): the per-category booleans are tag-presence flags, not
change flags: on every non-raising scan, each of the six downloader
booleans equals "the original fragment contains at least one tag of that
category's kind" (the scanners rewrite attributes only, so presence in
the intermediate bodies equals presence in the input). The aggregation
clause is as claimed: `dl_dependencies_and_fix_links` re-serializes the
parsed body exactly when the `any([...])` of the seven booleans is true
and otherwise returns the incoming content object unchanged. -/
theorem c9_scan_flags_corrected :
    (∀ (o : Oracle) (cfg : ScraperCfg) (fuel : Nat)
      (recurse : Fs → String → String → String → String → Option String → String →
        Fs × Except PyErr String)
      (fs : Fs) (body : List Element) (op pfh rfh nl ps : String)
      (fs6 : Fs) (body6 : List Element) (flags : ScanFlags),
      dlScanAll o cfg fuel recurse fs body op pfh rfh nl ps = (fs6, .ok (body6, flags)) →
      flags.imgs = body.any (·.tag == "img") ∧
      flags.docs = body.any (·.tag == "a") ∧
      flags.css_files = body.any (·.tag == "link") ∧
      flags.js_files = body.any (·.tag == "script") ∧
      flags.sources = body.any (·.tag == "source") ∧
      flags.iframes = body.any (·.tag == "iframe")) ∧
    (∀ (o : Oracle) (cfg : ScraperCfg) (fuel : Nat) (fs : Fs)
      (content op pfh rfh : String) (netlocOpt : Option String) (ps : String)
      (fs6 : Fs) (body6 : List Element) (flags : ScanFlags),
      dlScanAll o cfg fuel
        (fun f c op2 pfh2 rfh2 nl2 ps2 =>
          dlDependenciesAndFixLinks o cfg fuel f c op2 pfh2 rfh2 nl2 ps2)
        fs (o.fromstring content) op pfh rfh
        (if pyTruthyOptStr netlocOpt then netlocOpt.getD "" else cfg.instance_url) ps
        = (fs6, .ok (body6, flags)) →
      dlDependenciesAndFixLinks o cfg (fuel + 1) fs content op pfh rfh netlocOpt ps
        = (fs6, .ok (if flags.anyOf then o.tostring body6 else content))) := by
  constructor
  · intro o cfg fuel recurse fs body op pfh rfh nl ps fs6 body6 flags h
    exact dlScanAll_flags o cfg fuel recurse fs body op pfh rfh nl ps fs6 body6 flags h
  · intro o cfg fuel fs content op pfh rfh netlocOpt ps fs6 body6 flags h
    rw [dlDependenciesAndFixLinks]
    rw [h]
    cases hA : flags.anyOf <;> simp [hA]

set_option maxRecDepth 4000 in
/-- Witness for C9: a concrete fragment that parses to one `<p>` element
carries none of the scanned tags, every flag comes back `False`, and the
call returns the input content byte-for-byte. -/
theorem c9_scan_flags_corrected_witness :
    dlDependenciesAndFixLinks fxOracle fxCfg 1 fsEmpty "hello" "out" "" "" none ""
      = (fsEmpty, .ok "hello") :=
  c9_scan_flags_corrected.2 fxOracle fxCfg 0 fsEmpty "hello" "out" "" "" none ""
    fsEmpty [{ tag := "p", attrs := [], text := some "hello" }]
    { imgs := false, docs := false, css_files := false, js_files := false,
      sources := false, iframes := false, rewritten_links := false } rfl
